import Mathlib

/-!
# Issues page controller (`apps/issues/components/App.js`)

A shallow embedding of the `App` component of the issues page: the request
builder `fetchIssues`, the page fetcher `fetchIssuesPage`, the continuation
fetcher `fetchIssuesUntil`, the three operations that apply a response to the
component state, and the navigation and filter handlers.

Modelling conventions.

* A JavaScript object is an association list in insertion order
  (`JSObj`); writing a key that is present replaces its value in place,
  writing a new key appends it, and object spread writes the keys of the
  spread object one after the other.
* A promise is modelled by its settlement: `Except Rejection α`.  The
  backend `props.fetchIssues` is a function from the parameter object to
  such a settlement.  The recursion of `fetchIssuesUntil` has no bound in
  the source, so the model takes a fuel argument and answers `none` (still
  pending) when the fuel runs out.
* A callback may throw; `done` therefore returns `Except Rejection Bool`.
  A throw inside a `then` callback rejects the derived promise.
* `setState` is applied immediately, and no other event is interleaved
  between a request and its completion handler except where a handler is
  given as a function of its own (`fetchFirstIssuesThen`, ...).
* `App` extends `React.PureComponent`, and React drops a `setState` made on
  an instance that is no longer mounted.  The code that can run after the
  component is unmounted is the code that runs when a promise settles: the
  completion handlers, and `fetchIssues` when `fetchIssuesUntil` asks for
  the next page.  Its `setState` calls go through `App.setState`, which
  drops the update when `mounted` is false; `mounted` stands both for the
  field `this.mounted` (set in `componentDidMount`, cleared in
  `componentWillUnmount`) and for what React knows of the instance.  The
  event handlers (`selectNextIssue`, `closeFacet`) are called by the
  rendered page, that is on a mounted instance, and apply their update
  directly.
* The calls a property may speak about (page fetches, requests, `done`
  calls, router calls) are recorded in a ghost trace (`App.trace`).
* The helpers `serializeQuery`, `parseFacets` and `getOpen` live in another
  module (`../utils`) and are taken as parameters (`Utils`).
* Numbers are natural numbers: the page index, page size and total of a
  paging are non-negative integers well below `2^53`.
-/

namespace Issues

/-! ## JavaScript values and objects -/

/-- The JavaScript values that occur in queries and request parameters. -/
inductive JSValue where
  | undefined
  | bool (b : Bool)
  | num (n : Nat)
  | str (s : String)
  | arr (xs : List String)
  deriving DecidableEq, Repr

/-- A JavaScript object: string keys in insertion order. -/
abbrev JSObj (α : Type) := List (String × α)

namespace JSObj

/-- Property read `o[k]`; `none` when the key is absent. -/
def get {α : Type} : JSObj α → String → Option α
  | [], _ => none
  | (k', v) :: rest, k => if k' = k then some v else get rest k

/-- Property write `o[k] = v`: replaces in place, or appends a new key. -/
def set {α : Type} : JSObj α → String → α → JSObj α
  | [], k, v => [(k, v)]
  | (k', v') :: rest, k, v => if k' = k then (k', v) :: rest else (k', v') :: set rest k v

/-- Object spread `{ ...base, ...extra }` (also `Object.assign(base, extra)`). -/
def spread {α : Type} (base extra : JSObj α) : JSObj α :=
  extra.foldl (fun acc kv => set acc kv.1 kv.2) base

end JSObj

/-! ## Data model -/

/-- An issue; `App.js` reads only `key` and `component`. -/
structure Issue where
  key : String
  component : String
  deriving DecidableEq, Repr

/-- The paging cursor of a response. -/
structure Paging where
  pageIndex : Nat
  pageSize : Nat
  total : Nat
  deriving DecidableEq, Repr

/-- A facet as sent by the backend: property name and value/count pairs. -/
abbrev RawFacet := String × List (String × Nat)

/-- A parsed facet: value to count. -/
abbrev Facet := JSObj Nat

/-- The response of the issue search endpoint. -/
structure Response where
  issues : List Issue
  paging : Paging
  facets : List RawFacet
  components : List (JSObj JSValue)
  languages : List (JSObj JSValue)
  rules : List (JSObj JSValue)
  users : List (JSObj JSValue)
  deriving DecidableEq, Repr

/-- The reason of a rejected promise (or the value thrown by a callback). -/
inductive Rejection where
  | reason (v : JSValue)
  | typeError
  deriving DecidableEq, Repr

/-- The value `fetchIssuesUntil` resolves with: `{ issues, paging }`. -/
structure Fetched where
  issues : List Issue
  paging : Paging
  deriving DecidableEq, Repr

/-- The structured query is a JavaScript object (`Query` of `../utils`). -/
abbrev Query := JSObj JSValue

/-- The component the page is shown for (`props.component`). -/
structure Component where
  key : String
  deriving DecidableEq, Repr

/-- A router location: `{ pathname, query }`. -/
structure Location where
  pathname : String
  query : JSObj JSValue
  deriving DecidableEq, Repr

/-- The props of `App` (`router` calls are recorded in the trace). -/
structure Props where
  component : Option Component
  isLoggedIn : Bool
  fetchIssues : JSObj JSValue → Except Rejection Response
  location : Location

/-- The state of `App`. -/
structure State where
  checked : List String
  facets : JSObj Facet
  issues : List Issue
  loading : Bool
  myIssues : Bool
  openFacets : JSObj Bool
  paging : Option Paging
  query : Query
  referencedComponents : JSObj (JSObj JSValue)
  referencedLanguages : JSObj (JSObj JSValue)
  referencedRules : JSObj (JSObj JSValue)
  referencedUsers : JSObj (JSObj JSValue)
  selected : Option String
  deriving DecidableEq, Repr

/-- The calls recorded while the component runs: a call of `this.fetchIssuesPage(p)`, a call
of `this.fetchIssuesUntil(p, done)`, a call of `this.props.fetchIssues(parameters)`, a call
`done(issues, paging)` made by `fetchIssuesUntil`, and the calls of `router.push` and
`router.replace`. -/
inductive Event where
  | fetchIssuesPage (p : Nat)
  | fetchIssuesUntil (p : Nat)
  | request (parameters : JSObj JSValue)
  | done (issues : List Issue) (paging : Paging)
  | routerPush (path : Location)
  | routerReplace (path : Location)
  deriving DecidableEq, Repr

/-- A component instance: props, state, the `mounted` field and the trace. -/
structure App where
  props : Props
  state : State
  mounted : Bool
  trace : List Event

/-- The helpers imported from `../utils`, taken as parameters. -/
structure Utils where
  serializeQuery : Query → JSObj JSValue
  parseFacets : List RawFacet → JSObj Facet
  getOpen : JSObj JSValue → Option String

/-- JavaScript truthiness of a `?string`. -/
def truthy : Option String → Bool
  | none => false
  | some s => s != ""

/-- Appends an event to the trace. -/
def App.log (app : App) (e : Event) : App :=
  { app with trace := app.trace ++ [e] }

/-- The call `this.setState(update)` as React carries it out: the update of an instance that
is no longer mounted is dropped. -/
def App.setState (app : App) (update : State → State) : App :=
  if app.mounted then { app with state := update app.state } else app

/-! ## Request builder and page fetcher -/

/-- The facet names requested with every search. -/
def facetNames : List String :=
  ["assignees", "authors", "createdAt", "directories", "fileUuids", "languages",
   "moduleUuids", "projectUuids", "resolutions", "rules", "severities", "statuses",
   "tags", "types"]

/-- The value of `component && component.key`. -/
def componentKey : Option Component → JSValue
  | none => .undefined
  | some c => .str c.key

/-- The object `parameters` built by `fetchIssues(additional)`. -/
def parameters (u : Utils) (component : Option Component) (query : Query) (myIssues : Bool)
    (additional : JSObj JSValue) : JSObj JSValue :=
  let o : JSObj JSValue := [("componentKeys", componentKey component)]
  let o := JSObj.spread o (u.serializeQuery query)
  let o := JSObj.set o "s" (.str "FILE_LINE")
  let o := JSObj.set o "ps" (.num 25)
  let o := JSObj.set o "facets" (.str (",".intercalate facetNames))
  let o := JSObj.spread o additional
  if myIssues then JSObj.spread o [("assignees", .str "__me__")] else o

/-- The method `fetchIssues(additional)`: builds the parameters, sets `loading`, and calls
`props.fetchIssues`. -/
def fetchIssues (u : Utils) (app : App) (additional : JSObj JSValue) :
    App × Except Rejection Response :=
  let ps := parameters u app.props.component app.state.query app.state.myIssues additional
  let app := app.setState fun state => { state with loading := true }
  (app.log (.request ps), app.props.fetchIssues ps)

/-- The method `fetchIssuesPage(p)`: `fetchIssues({ p })`. -/
def fetchIssuesPage (u : Utils) (app : App) (p : Nat) : App × Except Rejection Response :=
  fetchIssues u (app.log (.fetchIssuesPage p)) [("p", .num p)]

/-! ## Continuation fetcher -/

/-- The method `fetchIssuesUntil(p, done)`.  `none` is a promise still pending when the fuel
is used up.  `done` receives the `issues` and `paging` of the response just received. -/
def fetchIssuesUntil (u : Utils) (done : List Issue → Paging → Except Rejection Bool) :
    Nat → App → Nat → App × Option (Except Rejection Fetched)
  | 0, app, _ => (app, none)
  | fuel + 1, app, p =>
    match fetchIssuesPage u (app.log (.fetchIssuesUntil p)) p with
    | (app, .error e) => (app, some (.error e))
    | (app, .ok response) =>
      let app := app.log (.done response.issues response.paging)
      match done response.issues response.paging with
      | .error e => (app, some (.error e))
      | .ok true => (app, some (.ok { issues := response.issues, paging := response.paging }))
      | .ok false =>
        match fetchIssuesUntil u done fuel app (p + 1) with
        | (app, none) => (app, none)
        | (app, some (.error e)) => (app, some (.error e))
        | (app, some (.ok nextResponse)) =>
          (app, some (.ok { issues := response.issues ++ nextResponse.issues,
                            paging := nextResponse.paging }))

/-! ## Operations that apply a response to the state -/

/-- JavaScript `String(v)`, used for the keys of `keyBy`. -/
def JSValue.toKey : JSValue → String
  | .undefined => "undefined"
  | .bool b => if b then "true" else "false"
  | .num n => toString n
  | .str s => s
  | .arr xs => ",".intercalate xs

/-- The lodash function `keyBy(collection, property)`. -/
def keyBy (collection : List (JSObj JSValue)) (property : String) : JSObj (JSObj JSValue) :=
  collection.foldl
    (fun acc o => JSObj.set acc ((JSObj.get o property).getD .undefined).toKey o) []

/-- The completion handler of `fetchFirstIssues`. -/
def fetchFirstIssuesThen (u : Utils) (app : App) (response : Response) : App :=
  if app.mounted then
    let opened := u.getOpen app.props.location.query
    app.setState fun state => { state with
      facets := u.parseFacets response.facets
      loading := false
      issues := response.issues
      paging := some response.paging
      referencedComponents := keyBy response.components "uuid"
      referencedLanguages := keyBy response.languages "key"
      referencedRules := keyBy response.rules "key"
      referencedUsers := keyBy response.users "login"
      selected :=
        match response.issues with
        | [] => none
        | first :: _ =>
          if (response.issues.find? (fun issue => some issue.key == opened)).isSome
          then opened else some first.key }
  else app

/-- The method `fetchFirstIssues()`, the backend answering at once. -/
def fetchFirstIssues (u : Utils) (app : App) : App :=
  match fetchIssues u app [] with
  | (app, .ok response) => fetchFirstIssuesThen u app response
  | (app, .error _) => app

/-- The completion handler of `fetchMoreIssues`. -/
def fetchMoreIssuesThen (app : App) (response : Response) : App :=
  if app.mounted then
    app.setState fun state => { state with
      loading := false
      issues := state.issues ++ response.issues
      paging := some response.paging }
  else app

/-- The method `fetchMoreIssues()`, the backend answering at once. -/
def fetchMoreIssues (u : Utils) (app : App) : App :=
  match app.state.paging with
  | none => app
  | some paging =>
    match fetchIssuesPage u app (paging.pageIndex + 1) with
    | (app, .ok response) => fetchMoreIssuesThen app response
    | (app, .error _) => app

/-- The closure `isSameComponent` of `fetchIssuesForComponent`. -/
def isSameComponent (openIssue issue : Issue) : Bool :=
  issue.component == openIssue.component

/-- The closure `done` of `fetchIssuesForComponent`.  Reading `.component` of
`issues[issues.length - 1]` throws a `TypeError` when `issues` is empty. -/
def done (openIssue : Issue) (issues : List Issue) (paging : Paging) : Except Rejection Bool :=
  if paging.total ≤ paging.pageIndex * paging.pageSize then .ok true
  else
    match issues.getLast? with
    | none => .error .typeError
    | some last => .ok (last.component != openIssue.component)

/-- The completion handler of `fetchIssuesForComponent`; `issues` and `openIssue` are the
values captured when the method was called.  The handler does not test `this.mounted`; its
`setState` is dropped by React when the instance is no longer mounted. -/
def fetchIssuesForComponentThen (app : App) (issues : List Issue) (openIssue : Issue)
    (response : Fetched) : App × List Issue :=
  let nextIssues := issues ++ response.issues
  (app.setState fun state => { state with
      issues := nextIssues
      loading := false
      paging := some response.paging },
    nextIssues.filter (isSameComponent openIssue))

/-- The method `fetchIssuesForComponent()`, the backend answering at once.  A throw of the
first `done` call is reported like a rejection. -/
def fetchIssuesForComponent (u : Utils) (fuel : Nat) (app : App) :
    App × Option (Except Rejection (List Issue)) :=
  let issues := app.state.issues
  let opened := u.getOpen app.props.location.query
  match issues.find? (fun issue => some issue.key == opened), app.state.paging with
  | some openIssue, some paging =>
    match done openIssue issues paging with
    | .error e => (app, some (.error e))
    | .ok true => (app, some (.ok (issues.filter (isSameComponent openIssue))))
    | .ok false =>
      match fetchIssuesUntil u (done openIssue) fuel app (paging.pageIndex + 1) with
      | (app, none) => (app, none)
      | (app, some (.error e)) => (app, some (.error e))
      | (app, some (.ok response)) =>
        match fetchIssuesForComponentThen app issues openIssue response with
        | (app, sameComponent) => (app, some (.ok sameComponent))
  | _, _ => (app, some (.error (.reason .undefined)))

/-! ## Navigation and filter handlers -/

/-- The method `getSelectedIndex()`. -/
def getSelectedIndex (state : State) : Option Nat :=
  state.issues.findIdx? (fun issue => some issue.key == state.selected)

/-- The value of `myIssues ? 'true' : undefined`. -/
def myIssuesParam (myIssues : Bool) : JSValue :=
  if myIssues then .str "true" else .undefined

/-- The method `openIssue(issue)`. -/
def openIssue (u : Utils) (app : App) (issue : String) : App :=
  let query := JSObj.spread [] (u.serializeQuery app.state.query)
  let query := JSObj.set query "id" (componentKey app.props.component)
  let query := JSObj.set query "myIssues" (myIssuesParam app.state.myIssues)
  let query := JSObj.set query "open" (.str issue)
  let path : Location := { pathname := app.props.location.pathname, query := query }
  if truthy (u.getOpen app.props.location.query) then app.log (.routerReplace path)
  else app.log (.routerPush path)

/-- The method `selectNextIssue()`. -/
def selectNextIssue (u : Utils) (app : App) : App :=
  let issues := app.state.issues
  match getSelectedIndex app.state with
  | none => app
  | some selectedIndex =>
    if (selectedIndex : Int) < (issues.length : Int) - 1 then
      match issues[selectedIndex + 1]? with
      | none => app
      | some next =>
        if truthy (u.getOpen app.props.location.query) then openIssue u app next.key
        else { app with state := { app.state with selected := some next.key } }
    else app

/-- The method `closeFacet(property)`. -/
def closeFacet (app : App) (property : String) : App :=
  { app with state := { app.state with
      openFacets := JSObj.set (JSObj.spread [] app.state.openFacets) property false } }

/-- The method `handleMyIssuesChange(myIssues)`. -/
def handleMyIssuesChange (u : Utils) (app : App) (myIssues : Bool) : App :=
  let app := closeFacet app "assignees"
  let changed := JSObj.spread [] app.state.query
  let changed := JSObj.set changed "assigned" (.bool true)
  let changed := JSObj.set changed "assignees" (.arr [])
  let query := JSObj.spread [] (u.serializeQuery changed)
  let query := JSObj.set query "id" (componentKey app.props.component)
  let query := JSObj.set query "myIssues" (myIssuesParam myIssues)
  app.log (.routerPush { pathname := app.props.location.pathname, query := query })

/-! ## Reading the trace -/

/-- The pages asked of `fetchIssuesPage`, in call order. -/
def pageCalls (t : List Event) : List Nat :=
  t.filterMap fun e => match e with
    | .fetchIssuesPage p => some p
    | _ => none

/-- The start pages of the `fetchIssuesUntil` calls, in call order. -/
def untilCalls (t : List Event) : List Nat :=
  t.filterMap fun e => match e with
    | .fetchIssuesUntil p => some p
    | _ => none

/-- The parameter objects passed to `props.fetchIssues`, in call order. -/
def requests (t : List Event) : List (JSObj JSValue) :=
  t.filterMap fun e => match e with
    | .request ps => some ps
    | _ => none

/-- The arguments of the `done` calls of `fetchIssuesUntil`, in call order. -/
def doneCalls (t : List Event) : List (List Issue × Paging) :=
  t.filterMap fun e => match e with
    | .done issues paging => some (issues, paging)
    | _ => none

/-- The parameter object of the request `fetchIssuesPage(p)` of this component. -/
def pageRequest (u : Utils) (app : App) (p : Nat) : JSObj JSValue :=
  parameters u app.props.component app.state.query app.state.myIssues [("p", .num p)]

/-- The answer of the backend to the request `fetchIssuesPage(p)` of this component. -/
def page (u : Utils) (app : App) (p : Nat) : Except Rejection Response :=
  app.props.fetchIssues (pageRequest u app p)

/-- The issues of page `p`, empty when the request fails. -/
def pageIssues (u : Utils) (app : App) (p : Nat) : List Issue :=
  match page u app p with
  | .ok response => response.issues
  | .error _ => []

/-- The paging of page `p`, when the request succeeds. -/
def pagePaging (u : Utils) (app : App) (p : Nat) : Option Paging :=
  match page u app p with
  | .ok response => some response.paging
  | .error _ => none

/-- The arguments `done` is called with when page `p` arrives. -/
def pageArgs (u : Utils) (app : App) (p : Nat) : Option (List Issue × Paging) :=
  match page u app p with
  | .ok response => some (response.issues, response.paging)
  | .error _ => none

/-- The component once round `p` of `fetchIssuesUntil` has sent its request. -/
def App.requested (u : Utils) (app : App) (p : Nat) : App :=
  { app.setState fun state => { state with loading := true } with
    trace := app.trace ++ [.fetchIssuesUntil p, .fetchIssuesPage p, .request (pageRequest u app p)] }

/-- The events round `p` of `fetchIssuesUntil` records: the call itself, the page fetch, the
request, and, when the page arrives, the call of `done` on the issues and the paging of that
page. -/
def roundEvents (u : Utils) (app : App) (p : Nat) : List Event :=
  [.fetchIssuesUntil p, .fetchIssuesPage p, .request (pageRequest u app p)] ++
    match page u app p with
    | .ok response => [.done response.issues response.paging]
    | .error _ => []

/-- An object is well formed when no key occurs twice. -/
def JSObj.WellFormed {α : Type} (o : JSObj α) : Prop :=
  (o.map Prod.fst).Nodup

/-- The integer `ceil(total / pageSize)`. -/
def ceilDiv (total pageSize : Nat) : Nat :=
  (total + pageSize - 1) / pageSize

/-! ## Sample data

A concrete instance of the component, used to run the definitions. -/

/-- Stand-ins for the helpers of `../utils`: `open` is read from the location query, and
the query is sent as it is. -/
def sampleUtils : Utils where
  serializeQuery := fun query => query
  parseFacets := fun _ => []
  getOpen := fun query =>
    match JSObj.get query "open" with
    | some (.str key) => some key
    | _ => none

/-- A response that carries issues and a paging only. -/
def sampleResponse (issues : List Issue) (paging : Paging) : Response :=
  { issues := issues, paging := paging, facets := [], components := [], languages := [],
    rules := [], users := [] }

/-- A backend that serves the given pages, numbered from 1, with a constant page size and
total; a page beyond the given ones is empty. -/
def sampleBackend (pageSize total : Nat) (pages : List (List Issue)) :
    JSObj JSValue → Except Rejection Response := fun ps =>
  match JSObj.get ps "p" with
  | some (.num i) =>
    .ok (sampleResponse (if i = 0 then [] else pages.getD (i - 1) []) ⟨i, pageSize, total⟩)
  | _ => .ok (sampleResponse (pages.getD 0 []) ⟨1, pageSize, total⟩)

/-- A backend that serves the given pages like `sampleBackend` and fails on a request for a
page beyond them. -/
def failingBackend (pageSize total : Nat) (pages : List (List Issue)) :
    JSObj JSValue → Except Rejection Response := fun ps =>
  match JSObj.get ps "p" with
  | some (.num i) =>
    if 0 < i ∧ i ≤ pages.length then sampleBackend pageSize total pages ps
    else .error (.reason (.str "Service Unavailable"))
  | _ => sampleBackend pageSize total pages ps

/-- A component on the location `/issues?open=...` holding the given issues and paging. -/
def sampleApp (backend : JSObj JSValue → Except Rejection Response) (opened : Option String)
    (issues : List Issue) (paging : Option Paging) (selected : Option String) : App where
  props :=
    { component := none
      isLoggedIn := true
      fetchIssues := backend
      location :=
        { pathname := "/issues"
          query := match opened with
            | some key => [("resolved", .str "false"), ("open", .str key)]
            | none => [("resolved", .str "false")] } }
  state :=
    { checked := []
      facets := []
      issues := issues
      loading := false
      myIssues := false
      openFacets := [("resolutions", true), ("types", true)]
      paging := paging
      query := [("resolved", .bool false)]
      referencedComponents := []
      referencedLanguages := []
      referencedRules := []
      referencedUsers := []
      selected := selected }
  mounted := true
  trace := []

/-- Issues of one component with the given keys. -/
def issuesOf (component : String) (keys : List String) : List Issue :=
  keys.map fun key => { key := key, component := component }

/-- The first 25 issues of file `A`. -/
def pageA1 : List Issue :=
  issuesOf "A" ["a01", "a02", "a03", "a04", "a05", "a06", "a07", "a08", "a09", "a10", "a11",
    "a12", "a13", "a14", "a15", "a16", "a17", "a18", "a19", "a20", "a21", "a22", "a23", "a24",
    "a25"]

/-- The next 25 issues of file `A`. -/
def pageA2 : List Issue :=
  issuesOf "A" ["a26", "a27", "a28", "a29", "a30", "a31", "a32", "a33", "a34", "a35", "a36",
    "a37", "a38", "a39", "a40", "a41", "a42", "a43", "a44", "a45", "a46", "a47", "a48", "a49",
    "a50"]

/-- Ten issues of file `B`. -/
def pageB : List Issue :=
  issuesOf "B" ["b01", "b02", "b03", "b04", "b05", "b06", "b07", "b08", "b09", "b10"]

/-- Ten issues of file `A`. -/
def tenOfA : List Issue :=
  issuesOf "A" ["a01", "a02", "a03", "a04", "a05", "a06", "a07", "a08", "a09", "a10"]

/-- The issue `a01` of file `A`. -/
def issueA01 : Issue := { key := "a01", component := "A" }

/-- Scenario A: a page size of 25 and 10 issues in all, all of file `A`; nothing is loaded. -/
def scenarioA : App :=
  sampleApp (sampleBackend 25 10 [tenOfA]) (some "a01") [] none none

/-- Scenario B: a page size of 25 and 60 issues in all; file `A` fills pages 1 and 2 and
page 3 holds file `B`; nothing is loaded. -/
def scenarioB : App :=
  sampleApp (sampleBackend 25 60 [pageA1, pageA2, pageB]) (some "a01") [] none none

/-- No issue at all: a page size of 25 and a total of 0. -/
def scenarioNone : App :=
  sampleApp (sampleBackend 25 0 []) none [] none none

/-- A backend that fails on page 3: pages 1 and 2 hold file `A`, 75 issues announced. -/
def scenarioFails : App :=
  sampleApp (failingBackend 25 75 [pageA1, pageA2]) (some "a01") [] none none

/-- Page 1 of file `A` is loaded and `a01` is open; the backend announces 60 issues and
answers page 2 with an empty list. -/
def scenarioHole : App :=
  sampleApp (sampleBackend 25 60 [pageA1, [], pageB]) (some "a01") pageA1 (some ⟨1, 25, 60⟩)
    (some "a01")

/-- Page 1 of scenario B is loaded, nothing is open, and the last loaded issue is
selected. -/
def scenarioLast : App :=
  sampleApp (sampleBackend 25 60 [pageA1, pageA2, pageB]) none pageA1 (some ⟨1, 25, 60⟩)
    (some "a25")

/-- Page 1 of scenario B is loaded, `a01` is open, and the component has been unmounted. -/
def scenarioUnmounted : App :=
  { sampleApp (sampleBackend 25 60 [pageA1, pageA2, pageB]) (some "a01") pageA1
      (some ⟨1, 25, 60⟩) (some "a01") with mounted := false }

/-- Scenario D: the page of project `proj`, with an assignee selected, unassigned issues
asked for, and the assignees facet open. -/
def scenarioD : App :=
  { scenarioA with
    props := { scenarioA.props with component := some { key := "proj" } }
    state := { scenarioA.state with
      query := [("resolved", .bool false), ("assigned", .bool false),
        ("assignees", .arr ["bob"])]
      openFacets := [("resolutions", true), ("assignees", true)] } }

/-- The query `{ ...query, assigned: true, assignees: [] }` that `handleMyIssuesChange`
serializes. -/
def myIssuesQuery (query : Query) : Query :=
  JSObj.set (JSObj.set (JSObj.spread [] query) "assigned" (.bool true)) "assignees" (.arr [])

/-- A response carrying page 2 of scenario B. -/
def responseA2 : Response :=
  sampleResponse pageA2 ⟨2, 25, 60⟩

/-! ## A list of issues served in pages -/

/-- The `i`-th page, counted from 1, of the list `L` cut in pages of `pageSize` issues. -/
def slice (L : List Issue) (pageSize i : Nat) : List Issue :=
  (L.drop ((i - 1) * pageSize)).take pageSize

/-- The issues of one component are contiguous in `L`: between two issues of the same
component there are only issues of that component. -/
def ContiguousComponents (L : List Issue) : Prop :=
  ∀ l < L.length, ∀ j ≤ l, ∀ i ≤ j,
    (L[i]?).map Issue.component = (L[l]?).map Issue.component →
      (L[j]?).map Issue.component = (L[i]?).map Issue.component

/-- A backend that serves the list `L` in pages of `pageSize` issues. -/
def slicedBackend (pageSize : Nat) (L : List Issue) :
    JSObj JSValue → Except Rejection Response := fun ps =>
  match JSObj.get ps "p" with
  | some (.num i) => .ok (sampleResponse (slice L pageSize i) ⟨i, pageSize, L.length⟩)
  | _ => .ok (sampleResponse (slice L pageSize 1) ⟨1, pageSize, L.length⟩)

/-- Three issues of file `A` followed by two of file `B`. -/
def fiveIssues : List Issue :=
  issuesOf "A" ["a01", "a02", "a03"] ++ issuesOf "B" ["b01", "b02"]

/-- The list `fiveIssues` is served in pages of 2; page 1 is loaded and `a01` is open. -/
def scenarioSliced : App :=
  sampleApp (slicedBackend 2 fiveIssues) (some "a01") (fiveIssues.take (1 * 2))
    (some ⟨1, 2, 5⟩) (some "a01")

/-! ## Objects -/

namespace JSObj

theorem get_set_same {α : Type} (o : JSObj α) (k : String) (v : α) :
    get (set o k v) k = some v := by
  induction o with
  | nil => simp [set, get]
  | cons kv rest ih =>
    obtain ⟨k', v'⟩ := kv
    by_cases h : k' = k
    · simp [set, get, h]
    · simp [set, get, h, ih]

theorem get_set_other {α : Type} (o : JSObj α) (k k' : String) (v : α) (h : k ≠ k') :
    get (set o k v) k' = get o k' := by
  induction o with
  | nil => simp [set, get, h]
  | cons kv rest ih =>
    obtain ⟨k₁, v₁⟩ := kv
    by_cases h₁ : k₁ = k
    · subst h₁
      simp [set, get, h]
    · simp only [set, h₁, if_false, get, ih]

theorem spread_nil {α : Type} (o : JSObj α) : spread o [] = o := rfl

theorem spread_cons {α : Type} (o : JSObj α) (kv : String × α) (rest : JSObj α) :
    spread o (kv :: rest) = spread (set o kv.1 kv.2) rest := rfl

theorem get_spread_absent {α : Type} (extra base : JSObj α) (k : String)
    (h : get extra k = none) : get (spread base extra) k = get base k := by
  induction extra generalizing base with
  | nil => rfl
  | cons kv rest ih =>
    obtain ⟨k₁, v₁⟩ := kv
    by_cases h₁ : k₁ = k
    · simp [get, h₁] at h
    · simp only [get, h₁, if_false] at h
      rw [spread_cons, ih _ h, get_set_other _ _ _ _ h₁]

theorem get_eq_none_of_not_mem {α : Type} (o : JSObj α) (k : String)
    (h : k ∉ o.map Prod.fst) : get o k = none := by
  induction o with
  | nil => rfl
  | cons kv rest ih =>
    obtain ⟨k₁, v₁⟩ := kv
    simp only [List.map_cons, List.mem_cons, not_or] at h
    have h₁ : ¬ k₁ = k := fun e => h.1 e.symm
    simp only [get, h₁, if_false]
    exact ih h.2

theorem get_spread {α : Type} (extra base : JSObj α) (k : String) (h : WellFormed extra) :
    get (spread base extra) k = (get extra k).orElse fun _ => get base k := by
  induction extra generalizing base with
  | nil => simp [spread_nil, get]
  | cons kv rest ih =>
    obtain ⟨k₁, v₁⟩ := kv
    have hn : k₁ ∉ rest.map Prod.fst ∧ WellFormed rest := by
      simpa [WellFormed] using h
    by_cases h₁ : k₁ = k
    · subst h₁
      rw [spread_cons, get_spread_absent _ _ _ (get_eq_none_of_not_mem _ _ hn.1)]
      simp [get, get_set_same]
    · rw [spread_cons, ih _ hn.2]
      simp only [get, h₁, if_false, get_set_other _ _ _ _ h₁]

theorem get_spread_nil {α : Type} (o : JSObj α) (k : String) (h : WellFormed o) :
    get (spread [] o) k = get o k := by
  rw [get_spread _ _ _ h]
  cases get o k <;> simp [get]

end JSObj

/-! ## Reading the trace of a run -/

theorem pageCalls_append (a b : List Event) : pageCalls (a ++ b) = pageCalls a ++ pageCalls b :=
  List.filterMap_append _ _ _

theorem untilCalls_append (a b : List Event) :
    untilCalls (a ++ b) = untilCalls a ++ untilCalls b :=
  List.filterMap_append _ _ _

theorem requests_append (a b : List Event) : requests (a ++ b) = requests a ++ requests b :=
  List.filterMap_append _ _ _

theorem doneCalls_append (a b : List Event) : doneCalls (a ++ b) = doneCalls a ++ doneCalls b :=
  List.filterMap_append _ _ _

/-! ## One round of the continuation fetcher -/

theorem App.setState_of_mounted (app : App) (update : State → State)
    (h : app.mounted = true) :
    app.setState update = { app with state := update app.state } := by
  simp [App.setState, h]

theorem App.setState_of_unmounted (app : App) (update : State → State)
    (h : app.mounted = false) : app.setState update = app := by
  simp [App.setState, h]

theorem App.setState_props (app : App) (update : State → State) :
    (app.setState update).props = app.props := by
  unfold App.setState
  split <;> rfl

theorem App.setState_mounted (app : App) (update : State → State) :
    (app.setState update).mounted = app.mounted := by
  unfold App.setState
  split <;> rfl

theorem App.setState_trace (app : App) (update : State → State) :
    (app.setState update).trace = app.trace := by
  unfold App.setState
  split <;> rfl

theorem fetchIssuesPage_eq (u : Utils) (app : App) (p : Nat) :
    fetchIssuesPage u app p =
      ({ app.setState fun state => { state with loading := true } with
          trace := app.trace ++ [.fetchIssuesPage p, .request (pageRequest u app p)] },
        page u app p) := by
  cases h : app.mounted <;>
    simp [fetchIssuesPage, fetchIssues, App.log, App.setState, page, pageRequest, h]

theorem fetchIssuesPage_until (u : Utils) (app : App) (p : Nat) :
    fetchIssuesPage u (app.log (.fetchIssuesUntil p)) p = (app.requested u p, page u app p) := by
  cases h : app.mounted <;>
    simp [fetchIssuesPage, fetchIssues, App.log, App.setState, page, pageRequest,
      App.requested, h]

theorem pageRequest_requested_log (u : Utils) (app : App) (p : Nat) (e : Event) :
    pageRequest u ((app.requested u p).log e) = pageRequest u app := by
  funext q
  cases h : app.mounted <;> simp [pageRequest, App.requested, App.setState, App.log, h]

theorem page_requested_log (u : Utils) (app : App) (p q : Nat) (e : Event) :
    page u ((app.requested u p).log e) q = page u app q := by
  cases h : app.mounted <;> simp [page, pageRequest, App.requested, App.setState, App.log, h]

theorem page_requested_log_fun (u : Utils) (app : App) (p : Nat) (e : Event) :
    page u ((app.requested u p).log e) = page u app :=
  funext fun q => page_requested_log u app p q e

theorem pageIssues_requested_log (u : Utils) (app : App) (p : Nat) (e : Event) :
    pageIssues u ((app.requested u p).log e) = pageIssues u app := by
  funext q
  simp only [pageIssues, page_requested_log]

theorem pagePaging_requested_log (u : Utils) (app : App) (p : Nat) (e : Event) :
    pagePaging u ((app.requested u p).log e) = pagePaging u app := by
  funext q
  simp only [pagePaging, page_requested_log]

theorem pageArgs_requested_log (u : Utils) (app : App) (p : Nat) (e : Event) :
    pageArgs u ((app.requested u p).log e) = pageArgs u app := by
  funext q
  simp only [pageArgs, page_requested_log]

theorem roundEvents_requested_log (u : Utils) (app : App) (p : Nat) (e : Event) :
    roundEvents u ((app.requested u p).log e) = roundEvents u app := by
  funext q
  simp only [roundEvents, page_requested_log, pageRequest_requested_log]

theorem trace_requested (u : Utils) (app : App) (p : Nat) :
    (app.requested u p).trace =
      app.trace ++ [.fetchIssuesUntil p, .fetchIssuesPage p, .request (pageRequest u app p)] :=
  rfl

theorem trace_requested_log (u : Utils) (app : App) (p : Nat) (e : Event) :
    ((app.requested u p).log e).trace =
      app.trace ++ [.fetchIssuesUntil p, .fetchIssuesPage p, .request (pageRequest u app p), e] := by
  simp [App.requested, App.log]

theorem fetchIssuesUntil_zero (u : Utils) (done : List Issue → Paging → Except Rejection Bool)
    (app : App) (p : Nat) : fetchIssuesUntil u done 0 app p = (app, none) := rfl

theorem fetchIssuesUntil_failed (u : Utils) (done : List Issue → Paging → Except Rejection Bool)
    (fuel : Nat) (app : App) (p : Nat) (e : Rejection) (h : page u app p = .error e) :
    fetchIssuesUntil u done (fuel + 1) app p = (app.requested u p, some (.error e)) := by
  simp only [fetchIssuesUntil, fetchIssuesPage_until, h]

theorem fetchIssuesUntil_thrown (u : Utils) (done : List Issue → Paging → Except Rejection Bool)
    (fuel : Nat) (app : App) (p : Nat) (r : Response) (e : Rejection)
    (h : page u app p = .ok r) (hd : done r.issues r.paging = .error e) :
    fetchIssuesUntil u done (fuel + 1) app p =
      ((app.requested u p).log (.done r.issues r.paging), some (.error e)) := by
  simp only [fetchIssuesUntil, fetchIssuesPage_until, h, hd]

theorem fetchIssuesUntil_done (u : Utils) (done : List Issue → Paging → Except Rejection Bool)
    (fuel : Nat) (app : App) (p : Nat) (r : Response)
    (h : page u app p = .ok r) (hd : done r.issues r.paging = .ok true) :
    fetchIssuesUntil u done (fuel + 1) app p =
      ((app.requested u p).log (.done r.issues r.paging),
        some (.ok { issues := r.issues, paging := r.paging })) := by
  simp only [fetchIssuesUntil, fetchIssuesPage_until, h, hd]

theorem fetchIssuesUntil_more (u : Utils) (done : List Issue → Paging → Except Rejection Bool)
    (fuel : Nat) (app : App) (p : Nat) (r : Response)
    (h : page u app p = .ok r) (hd : done r.issues r.paging = .ok false) :
    fetchIssuesUntil u done (fuel + 1) app p =
      match fetchIssuesUntil u done fuel
          ((app.requested u p).log (.done r.issues r.paging)) (p + 1) with
      | (app, none) => (app, none)
      | (app, some (.error e)) => (app, some (.error e))
      | (app, some (.ok nextResponse)) =>
        (app, some (.ok { issues := r.issues ++ nextResponse.issues,
                          paging := nextResponse.paging })) := by
  simp only [fetchIssuesUntil, fetchIssuesPage_until, h, hd]

theorem pageCalls_round (u : Utils) (app : App) (p : Nat) (e : Event)
    (he : ∀ q, e ≠ .fetchIssuesPage q) :
    pageCalls ((app.requested u p).log e).trace = pageCalls app.trace ++ [p] := by
  rw [trace_requested_log, pageCalls_append]
  cases e <;> simp_all [pageCalls]

theorem pageCalls_requested (u : Utils) (app : App) (p : Nat) :
    pageCalls (app.requested u p).trace = pageCalls app.trace ++ [p] := by
  simp [App.requested, pageCalls_append, pageCalls]

theorem pageIssues_of_ok (u : Utils) (app : App) (p : Nat) (r : Response)
    (h : page u app p = .ok r) : pageIssues u app p = r.issues := by
  simp [pageIssues, h]

theorem pagePaging_of_ok (u : Utils) (app : App) (p : Nat) (r : Response)
    (h : page u app p = .ok r) : pagePaging u app p = some r.paging := by
  simp [pagePaging, h]

theorem requests_round (u : Utils) (app : App) (p : Nat) (e : Event)
    (he : ∀ ps, e ≠ .request ps) :
    requests ((app.requested u p).log e).trace = requests app.trace ++ [pageRequest u app p] := by
  rw [trace_requested_log, requests_append]
  cases e <;> simp_all [requests]

theorem requests_requested (u : Utils) (app : App) (p : Nat) :
    requests (app.requested u p).trace = requests app.trace ++ [pageRequest u app p] := by
  simp [App.requested, requests_append, requests]

theorem doneCalls_round (u : Utils) (app : App) (p : Nat) (issues : List Issue)
    (paging : Paging) :
    doneCalls ((app.requested u p).log (.done issues paging)).trace =
      doneCalls app.trace ++ [(issues, paging)] := by
  rw [trace_requested_log, doneCalls_append]
  simp [doneCalls]

theorem doneCalls_requested (u : Utils) (app : App) (p : Nat) :
    doneCalls (app.requested u p).trace = doneCalls app.trace := by
  simp [App.requested, doneCalls_append, doneCalls]

theorem fetchIssuesUntil_more_fst (u : Utils)
    (done : List Issue → Paging → Except Rejection Bool)
    (fuel : Nat) (app : App) (p : Nat) (r : Response)
    (h : page u app p = .ok r) (hd : done r.issues r.paging = .ok false) :
    (fetchIssuesUntil u done (fuel + 1) app p).1 =
      (fetchIssuesUntil u done fuel
        ((app.requested u p).log (.done r.issues r.paging)) (p + 1)).1 := by
  rw [fetchIssuesUntil_more u done fuel app p r h hd]
  rcases fetchIssuesUntil u done fuel
      ((app.requested u p).log (.done r.issues r.paging)) (p + 1) with ⟨a, _ | ⟨e | n⟩⟩ <;> rfl

theorem fetchIssuesUntil_more_snd (u : Utils)
    (done : List Issue → Paging → Except Rejection Bool)
    (fuel : Nat) (app : App) (p : Nat) (r : Response)
    (h : page u app p = .ok r) (hd : done r.issues r.paging = .ok false) :
    (fetchIssuesUntil u done (fuel + 1) app p).2 =
      (fetchIssuesUntil u done fuel
        ((app.requested u p).log (.done r.issues r.paging)) (p + 1)).2.map
        fun settled => settled.map fun nextResponse =>
          { issues := r.issues ++ nextResponse.issues, paging := nextResponse.paging } := by
  rw [fetchIssuesUntil_more u done fuel app p r h hd]
  rcases fetchIssuesUntil u done fuel
      ((app.requested u p).log (.done r.issues r.paging)) (p + 1) with ⟨a, _ | ⟨e | n⟩⟩ <;> rfl

theorem pageArgs_of_ok (u : Utils) (app : App) (p : Nat) (r : Response)
    (h : page u app p = .ok r) : pageArgs u app p = some (r.issues, r.paging) := by
  simp [pageArgs, h]

theorem lt_ceilDiv (total pageSize p : Nat) (hps : 0 < pageSize)
    (h : ¬ total ≤ p * pageSize) : p < ceilDiv total pageSize := by
  unfold ceilDiv
  rw [Nat.lt_iff_add_one_le, Nat.le_div_iff_mul_le hps, Nat.succ_mul]
  omega

theorem done_false_not_reached (openIssue : Issue) (issues : List Issue) (paging : Paging)
    (h : done openIssue issues paging = .ok false) :
    ¬ paging.total ≤ paging.pageIndex * paging.pageSize := by
  intro hle
  simp [done, hle] at h

/-- From page `p` on, against a backend with a constant total and page size, the run with the
`done` of `fetchIssuesForComponent` settles within `ceilDiv total pageSize + 1 - p` rounds,
and within one round when that is zero. -/
theorem fetchIssuesUntil_bounded_from (u : Utils) (openIssue : Issue) (pageSize total : Nat)
    (hps : 0 < pageSize) (fuel : Nat) (app : App) (p : Nat)
    (hb : ∀ i, ∃ r, page u app i = .ok r ∧ r.paging = ⟨i, pageSize, total⟩)
    (hfuel : ceilDiv total pageSize < p + fuel) (hpos : 0 < fuel) :
    (fetchIssuesUntil u (done openIssue) fuel app p).2 ≠ none
      ∧ ∃ m, m ≤ max 1 (ceilDiv total pageSize + 1 - p)
        ∧ pageCalls (fetchIssuesUntil u (done openIssue) fuel app p).1.trace =
            pageCalls app.trace ++ List.range' p m
        ∧ requests (fetchIssuesUntil u (done openIssue) fuel app p).1.trace =
            requests app.trace ++ (List.range' p m).map (pageRequest u app) := by
  induction fuel generalizing app p with
  | zero => omega
  | succ fuel ih =>
    obtain ⟨r, hp, hr⟩ := hb p
    cases hd : done openIssue r.issues r.paging with
    | error e =>
      rw [fetchIssuesUntil_thrown u _ fuel app p r e hp hd]
      exact ⟨by simp, 1, by omega, by simpa using pageCalls_round u app p _ (by simp),
        by simpa using requests_round u app p _ (by simp)⟩
    | ok b =>
      cases b with
      | true =>
        rw [fetchIssuesUntil_done u _ fuel app p r hp hd]
        exact ⟨by simp, 1, by omega, by simpa using pageCalls_round u app p _ (by simp),
          by simpa using requests_round u app p _ (by simp)⟩
      | false =>
        have hlt : p < ceilDiv total pageSize := by
          have := done_false_not_reached openIssue r.issues r.paging hd
          rw [hr] at this
          exact lt_ceilDiv total pageSize p hps this
        obtain ⟨h1, m, hm, h2, h3⟩ :=
          ih ((app.requested u p).log (.done r.issues r.paging)) (p + 1)
            (fun i => by rw [page_requested_log]; exact hb i) (by omega) (by omega)
        rw [pageRequest_requested_log] at h3
        rw [fetchIssuesUntil_more_fst u _ fuel app p r hp hd,
          fetchIssuesUntil_more_snd u _ fuel app p r hp hd]
        refine ⟨?_, m + 1, by omega, ?_, ?_⟩
        · intro hnone
          exact h1 (by simpa using hnone)
        · rw [h2, pageCalls_round u app p _ (by simp), List.range'_succ p m]
          simp
        · rw [h3, requests_round u app p _ (by simp), List.range'_succ p m]
          simp only [List.map_cons, List.append_assoc, List.singleton_append]

/-! ## The result of the continuation fetcher -/

/-- Enough fuel gives the result: when pages `p, ..., p+n` are answered, `done` is false on
the first `n` of them and true on page `p+n`, the run resolves with the concatenation of their
issues and the paging of page `p+n`, for every fuel above `n`. -/
theorem fetchIssuesUntil_resolves (u : Utils)
    (done : List Issue → Paging → Except Rejection Bool) (n : Nat) (app : App) (p : Nat)
    (last : Response) (fuel : Nat)
    (hfalse : ∀ i < n, ∃ r, page u app (p + i) = .ok r ∧ done r.issues r.paging = .ok false)
    (hlast : page u app (p + n) = .ok last) (hdone : done last.issues last.paging = .ok true)
    (hfuel : n < fuel) :
    (fetchIssuesUntil u done fuel app p).2 =
        some (.ok { issues := (List.range' p (n + 1)).flatMap (pageIssues u app),
                    paging := last.paging })
      ∧ pageCalls (fetchIssuesUntil u done fuel app p).1.trace =
          pageCalls app.trace ++ List.range' p (n + 1) := by
  induction n generalizing app p fuel with
  | zero =>
    obtain ⟨fuel, rfl⟩ : ∃ f, fuel = f + 1 := ⟨fuel - 1, by omega⟩
    rw [Nat.add_zero] at hlast
    rw [fetchIssuesUntil_done u done fuel app p last hlast hdone]
    exact ⟨by simp [pageIssues_of_ok u app p last hlast],
      by simpa using pageCalls_round u app p _ (by simp)⟩
  | succ n ih =>
    obtain ⟨fuel, rfl⟩ : ∃ f, fuel = f + 1 := ⟨fuel - 1, by omega⟩
    obtain ⟨r, hp, hd⟩ := hfalse 0 (by omega)
    rw [Nat.add_zero] at hp
    obtain ⟨h1, h2⟩ := ih ((app.requested u p).log (.done r.issues r.paging)) (p + 1) fuel
      (fun i hi => by
        obtain ⟨r', hp', hd'⟩ := hfalse (i + 1) (by omega)
        exact ⟨r', by rw [page_requested_log, ← hp']; congr 1; omega, hd'⟩)
      (by rw [page_requested_log, ← hlast]; congr 1; omega) (by omega)
    rw [pageIssues_requested_log] at h1
    rw [fetchIssuesUntil_more_fst u done fuel app p r hp hd,
      fetchIssuesUntil_more_snd u done fuel app p r hp hd]
    refine ⟨?_, ?_⟩
    · rw [h1, List.range'_succ p (n + 1), List.flatMap_cons, pageIssues_of_ok u app p r hp]
      rfl
    · rw [h2, pageCalls_round u app p _ (by simp), List.range'_succ p (n + 1)]
      simp

/-- C1: when `fetchIssuesUntil(p, done)` resolves, the pages it fetched are `p, p+1, ..., p+n`
for some `n`, every one of them answered, the issues it returns are the concatenation of the
issues of these pages in page order, and the paging it returns is that of page `p+n`. -/
theorem fetchIssuesUntil_resolves_with_concatenation (u : Utils)
    (done : List Issue → Paging → Except Rejection Bool) (fuel : Nat) (app : App) (p : Nat)
    (app' : App) (res : Fetched)
    (h : fetchIssuesUntil u done fuel app p = (app', some (.ok res))) :
    ∃ n, pageCalls app'.trace = pageCalls app.trace ++ List.range' p (n + 1)
      ∧ (∀ q ∈ List.range' p (n + 1), ∃ r, page u app q = .ok r)
      ∧ res.issues = (List.range' p (n + 1)).flatMap (pageIssues u app)
      ∧ pagePaging u app (p + n) = some res.paging := by
  induction fuel generalizing app p app' res with
  | zero => simp [fetchIssuesUntil] at h
  | succ fuel ih =>
    cases hp : page u app p with
    | error e => simp [fetchIssuesUntil_failed u done fuel app p e hp] at h
    | ok r =>
      cases hd : done r.issues r.paging with
      | error e => simp [fetchIssuesUntil_thrown u done fuel app p r e hp hd] at h
      | ok b =>
        cases b with
        | true =>
          rw [fetchIssuesUntil_done u done fuel app p r hp hd] at h
          simp only [Prod.mk.injEq, Option.some.injEq, Except.ok.injEq] at h
          obtain ⟨h1, h2⟩ := h
          subst h1 h2
          refine ⟨0, ?_, ?_, ?_, ?_⟩
          · simpa using pageCalls_round u app p _ (by simp)
          · intro q hq
            simp at hq
            exact ⟨r, hq ▸ hp⟩
          · simp [pageIssues_of_ok u app p r hp]
          · simpa using pagePaging_of_ok u app p r hp
        | false =>
          rw [fetchIssuesUntil_more u done fuel app p r hp hd] at h
          rcases hrec : fetchIssuesUntil u done fuel
              ((app.requested u p).log (.done r.issues r.paging)) (p + 1) with ⟨app2, out⟩
          rw [hrec] at h
          rcases out with _ | ⟨e | next⟩
          · simp at h
          · simp at h
          · simp only [Prod.mk.injEq, Option.some.injEq, Except.ok.injEq] at h
            obtain ⟨h1, h2⟩ := h
            subst h1 h2
            obtain ⟨n, hn1, hn2, hn3, hn4⟩ := ih _ _ _ _ hrec
            rw [pageIssues_requested_log] at hn3
            rw [pagePaging_requested_log] at hn4
            simp only [page_requested_log] at hn2
            refine ⟨n + 1, ?_, ?_, ?_, ?_⟩
            · rw [hn1, pageCalls_round u app p _ (by simp), List.range'_succ p (n + 1)]
              simp
            · intro q hq
              rw [List.range'_succ, List.mem_cons] at hq
              rcases hq with rfl | hq
              · exact ⟨r, hp⟩
              · exact hn2 q hq
            · rw [List.range'_succ p (n + 1), List.flatMap_cons, pageIssues_of_ok u app p r hp]
              simp only [hn3]
            · have : p + (n + 1) = p + 1 + n := by omega
              rw [this]
              exact hn4

/-- Scenario B run from page 1: the run resolves after pages 1, 2 and 3 with the 60 issues in
page order and the paging of page 3. -/
theorem fetchIssuesUntil_resolves_with_concatenation_witness :
    fetchIssuesUntil sampleUtils (done issueA01) 3 scenarioB 1 =
        ((fetchIssuesUntil sampleUtils (done issueA01) 3 scenarioB 1).1,
          some (.ok { issues := pageA1 ++ pageA2 ++ pageB, paging := ⟨3, 25, 60⟩ }))
      ∧ ∃ n, pageCalls (fetchIssuesUntil sampleUtils (done issueA01) 3 scenarioB 1).1.trace =
            pageCalls scenarioB.trace ++ List.range' 1 (n + 1)
          ∧ (∀ q ∈ List.range' 1 (n + 1), ∃ r, page sampleUtils scenarioB q = .ok r)
          ∧ pageA1 ++ pageA2 ++ pageB =
              (List.range' 1 (n + 1)).flatMap (pageIssues sampleUtils scenarioB)
          ∧ pagePaging sampleUtils scenarioB (1 + n) = some ⟨3, 25, 60⟩ :=
  ⟨by rfl, fetchIssuesUntil_resolves_with_concatenation sampleUtils (done issueA01) 3 scenarioB 1
    _ { issues := pageA1 ++ pageA2 ++ pageB, paging := ⟨3, 25, 60⟩ } (by rfl)⟩

/-- C2: when `done` holds on the first page fetched, `fetchIssuesUntil(p, done)` makes one
page request, for page `p`, and resolves with the issues and the paging of that page. -/
theorem fetchIssuesUntil_short_circuit (u : Utils)
    (done : List Issue → Paging → Except Rejection Bool) (fuel : Nat) (app : App) (p : Nat)
    (r : Response) (hp : page u app p = .ok r) (hd : done r.issues r.paging = .ok true) :
    (fetchIssuesUntil u done (fuel + 1) app p).2 =
        some (.ok { issues := r.issues, paging := r.paging })
      ∧ pageCalls (fetchIssuesUntil u done (fuel + 1) app p).1.trace = pageCalls app.trace ++ [p]
      ∧ requests (fetchIssuesUntil u done (fuel + 1) app p).1.trace =
          requests app.trace ++ [pageRequest u app p] := by
  rw [fetchIssuesUntil_done u done fuel app p r hp hd]
  exact ⟨rfl, pageCalls_round u app p _ (by simp), requests_round u app p _ (by simp)⟩

/-- Scenario A: with a page size of 25 and 10 issues of one file, the `done` of
`fetchIssuesForComponent` holds on page 1; one page is requested and the 10 issues are
returned. -/
theorem fetchIssuesUntil_short_circuit_witness :
    page sampleUtils scenarioA 1 = .ok (sampleResponse tenOfA ⟨1, 25, 10⟩)
      ∧ done issueA01 tenOfA ⟨1, 25, 10⟩ = .ok true
      ∧ (fetchIssuesUntil sampleUtils (done issueA01) 5 scenarioA 1).2 =
          some (.ok { issues := tenOfA, paging := ⟨1, 25, 10⟩ })
      ∧ pageCalls (fetchIssuesUntil sampleUtils (done issueA01) 5 scenarioA 1).1.trace = [1]
      ∧ requests (fetchIssuesUntil sampleUtils (done issueA01) 5 scenarioA 1).1.trace =
          [pageRequest sampleUtils scenarioA 1] :=
  ⟨rfl, rfl, fetchIssuesUntil_short_circuit sampleUtils (done issueA01) 4 scenarioA 1
    (sampleResponse tenOfA ⟨1, 25, 10⟩) rfl rfl⟩

/-- C4: when `done` is false on pages `p, ..., p+k-1` and the request for page `p+k` fails
with `e`, `fetchIssuesUntil(p, done)` is rejected with `e`; the pages requested are
`p, ..., p+k`, each once. -/
theorem fetchIssuesUntil_failure_propagates (u : Utils)
    (done : List Issue → Paging → Except Rejection Bool) (k : Nat) (app : App) (p : Nat)
    (e : Rejection) (fuel : Nat)
    (hfalse : ∀ i < k, ∃ r, page u app (p + i) = .ok r ∧ done r.issues r.paging = .ok false)
    (hfail : page u app (p + k) = .error e) (hfuel : k < fuel) :
    (fetchIssuesUntil u done fuel app p).2 = some (.error e)
      ∧ pageCalls (fetchIssuesUntil u done fuel app p).1.trace =
          pageCalls app.trace ++ List.range' p (k + 1)
      ∧ requests (fetchIssuesUntil u done fuel app p).1.trace =
          requests app.trace ++ (List.range' p (k + 1)).map (pageRequest u app) := by
  induction k generalizing app p fuel with
  | zero =>
    obtain ⟨fuel, rfl⟩ : ∃ f, fuel = f + 1 := ⟨fuel - 1, by omega⟩
    rw [fetchIssuesUntil_failed u done fuel app p e (by simpa using hfail)]
    exact ⟨rfl, by simpa using pageCalls_requested u app p,
      by simpa using requests_requested u app p⟩
  | succ k ih =>
    obtain ⟨fuel, rfl⟩ : ∃ f, fuel = f + 1 := ⟨fuel - 1, by omega⟩
    obtain ⟨r, hp, hd⟩ := hfalse 0 (by omega)
    rw [Nat.add_zero] at hp
    have hrec := ih ((app.requested u p).log (.done r.issues r.paging)) (p + 1) fuel
      (fun i hi => by
        obtain ⟨r', hp', hd'⟩ := hfalse (i + 1) (by omega)
        exact ⟨r', by rw [page_requested_log, ← hp']; congr 1; omega, hd'⟩)
      (by rw [page_requested_log, ← hfail]; congr 1; omega) (by omega)
    rw [fetchIssuesUntil_more_fst u done fuel app p r hp hd,
      fetchIssuesUntil_more_snd u done fuel app p r hp hd]
    obtain ⟨h1, h2, h3⟩ := hrec
    rw [pageRequest_requested_log] at h3
    refine ⟨by rw [h1]; rfl, ?_, ?_⟩
    · rw [h2, pageCalls_round u app p _ (by simp), List.range'_succ p (k + 1)]
      simp
    · rw [h3, requests_round u app p _ (by simp), List.range'_succ p (k + 1)]
      simp only [List.map_cons, List.append_assoc, List.singleton_append]

/-- A backend that fails on page 3 after two pages on which `done` is false: the run is
rejected with the reason of page 3, and pages 1, 2 and 3 are requested once each. -/
theorem fetchIssuesUntil_failure_propagates_witness :
    (∀ i < 2, ∃ r, page sampleUtils scenarioFails (1 + i) = .ok r
        ∧ done issueA01 r.issues r.paging = .ok false)
      ∧ page sampleUtils scenarioFails (1 + 2) = .error (.reason (.str "Service Unavailable"))
      ∧ (fetchIssuesUntil sampleUtils (done issueA01) 5 scenarioFails 1).2 =
          some (.error (.reason (.str "Service Unavailable")))
      ∧ pageCalls (fetchIssuesUntil sampleUtils (done issueA01) 5 scenarioFails 1).1.trace =
          pageCalls scenarioFails.trace ++ List.range' 1 (2 + 1)
      ∧ requests (fetchIssuesUntil sampleUtils (done issueA01) 5 scenarioFails 1).1.trace =
          requests scenarioFails.trace ++
            (List.range' 1 (2 + 1)).map (pageRequest sampleUtils scenarioFails) :=
  have hfalse : ∀ i < 2, ∃ r, page sampleUtils scenarioFails (1 + i) = .ok r
      ∧ done issueA01 r.issues r.paging = .ok false := fun i hi => by
    interval_cases i <;> exact ⟨_, rfl, rfl⟩
  ⟨hfalse, rfl, fetchIssuesUntil_failure_propagates sampleUtils (done issueA01) 2 scenarioFails 1
    (.reason (.str "Service Unavailable")) 5 hfalse rfl (by decide)⟩

/-- C3, as the code has it: against a backend that answers page `i` with the paging
`{pageIndex: i, pageSize, total}` for a positive `pageSize`, `fetchIssuesUntil` started at
page 1 with the `done` of `fetchIssuesForComponent` settles and makes at most
`max 1 (ceil(total / pageSize))` page requests, for pages `1, ..., m`; in scenario B it makes
exactly 3. -/
theorem fetchIssuesUntil_request_bound :
    (∀ (u : Utils) (openIssue : Issue) (pageSize total fuel : Nat) (app : App),
      0 < pageSize →
      (∀ i, ∃ r, page u app i = .ok r ∧ r.paging = ⟨i, pageSize, total⟩) →
      max 1 (ceilDiv total pageSize) ≤ fuel →
      (fetchIssuesUntil u (done openIssue) fuel app 1).2 ≠ none
        ∧ ∃ m, m ≤ max 1 (ceilDiv total pageSize)
          ∧ pageCalls (fetchIssuesUntil u (done openIssue) fuel app 1).1.trace =
              pageCalls app.trace ++ List.range' 1 m
          ∧ requests (fetchIssuesUntil u (done openIssue) fuel app 1).1.trace =
              requests app.trace ++ (List.range' 1 m).map (pageRequest u app))
      ∧ (∀ fuel, 3 ≤ fuel →
          pageCalls (fetchIssuesUntil sampleUtils (done issueA01) fuel scenarioB 1).1.trace =
            [1, 2, 3]
          ∧ (requests
              (fetchIssuesUntil sampleUtils (done issueA01) fuel scenarioB 1).1.trace).length = 3
          ∧ (fetchIssuesUntil sampleUtils (done issueA01) fuel scenarioB 1).2 =
              some (.ok { issues := pageA1 ++ pageA2 ++ pageB, paging := ⟨3, 25, 60⟩ })) := by
  constructor
  · intro u openIssue pageSize total fuel app hps hb hfuel
    have h := fetchIssuesUntil_bounded_from u openIssue pageSize total hps fuel app 1 hb
      (by omega) (by omega)
    simpa using h
  · intro fuel hfuel
    obtain ⟨fuel, rfl⟩ : ∃ f, fuel = f + 3 := ⟨fuel - 3, by omega⟩
    exact ⟨rfl, rfl, rfl⟩

/-- Scenario B meets the hypotheses of the bound with `ceil(60 / 25) = 3`: the run settles
and requests pages `1, ..., m` for some `m ≤ 3`. -/
theorem fetchIssuesUntil_request_bound_witness :
    (0 < 25 ∧ (∀ i, ∃ r, page sampleUtils scenarioB i = .ok r ∧ r.paging = ⟨i, 25, 60⟩)
        ∧ max 1 (ceilDiv 60 25) ≤ 3)
      ∧ (fetchIssuesUntil sampleUtils (done issueA01) 3 scenarioB 1).2 ≠ none
      ∧ ∃ m, m ≤ max 1 (ceilDiv 60 25)
        ∧ pageCalls (fetchIssuesUntil sampleUtils (done issueA01) 3 scenarioB 1).1.trace =
            pageCalls scenarioB.trace ++ List.range' 1 m
        ∧ requests (fetchIssuesUntil sampleUtils (done issueA01) 3 scenarioB 1).1.trace =
            requests scenarioB.trace ++ (List.range' 1 m).map (pageRequest sampleUtils scenarioB) :=
  ⟨⟨by decide, fun _ => ⟨_, rfl, rfl⟩, by decide⟩,
    fetchIssuesUntil_request_bound.1 sampleUtils issueA01 25 60 3 scenarioB (by decide)
      (fun _ => ⟨_, rfl, rfl⟩) (by decide)⟩

/-- C3 as stated fails for `total = 0`: the backend answers every page `i` with the paging
`{pageIndex: i, pageSize: 25, total: 0}`, `ceil(0 / 25) = 0`, and the run from page 1 still
makes one page request. -/
theorem fetchIssuesUntil_request_bound_counterexample :
    (∀ i, ∃ r, page sampleUtils scenarioNone i = .ok r ∧ r.paging = ⟨i, 25, 0⟩)
      ∧ ceilDiv 0 25 = 0
      ∧ (fetchIssuesUntil sampleUtils (done issueA01) 1 scenarioNone 1).2 =
          some (.ok { issues := [], paging := ⟨1, 25, 0⟩ })
      ∧ pageCalls (fetchIssuesUntil sampleUtils (done issueA01) 1 scenarioNone 1).1.trace = [1]
      ∧ requests (fetchIssuesUntil sampleUtils (done issueA01) 1 scenarioNone 1).1.trace =
          [pageRequest sampleUtils scenarioNone 1]
      ∧ ¬ (requests
            (fetchIssuesUntil sampleUtils (done issueA01) 1 scenarioNone 1).1.trace).length ≤
          ceilDiv 0 25 :=
  ⟨fun _ => ⟨_, rfl, rfl⟩, rfl, rfl, rfl, rfl, by decide⟩

theorem pageCalls_roundEvents (u : Utils) (app : App) (l : List Nat) :
    pageCalls (l.flatMap (roundEvents u app)) = l := by
  induction l with
  | nil => rfl
  | cons q rest ih =>
    rw [List.flatMap_cons, pageCalls_append, ih]
    cases hp : page u app q <;> simp [roundEvents, pageCalls, hp]

theorem doneCalls_roundEvents (u : Utils) (app : App) (l : List Nat) :
    doneCalls (l.flatMap (roundEvents u app)) = l.filterMap (pageArgs u app) := by
  induction l with
  | nil => rfl
  | cons q rest ih =>
    rw [List.flatMap_cons, doneCalls_append, ih]
    cases hp : page u app q <;> simp [roundEvents, doneCalls, pageArgs, hp]

/-- The run of `fetchIssuesUntil` is a sequence of `m` rounds, for pages `p, ..., p+m-1`: every
round but the last got its page and a `done` that is false, and the last round, unless the fuel
ran out, did not. -/
theorem fetchIssuesUntil_rounds (u : Utils)
    (done : List Issue → Paging → Except Rejection Bool) (fuel : Nat) (app : App) (p : Nat) :
    ∃ m, m ≤ fuel ∧ (0 < fuel → 0 < m)
      ∧ (fetchIssuesUntil u done fuel app p).1.trace =
          app.trace ++ (List.range' p m).flatMap (roundEvents u app)
      ∧ (∀ q, p ≤ q → q + 1 < p + m →
          ∃ r, page u app q = .ok r ∧ done r.issues r.paging = .ok false)
      ∧ (m < fuel → ∀ r, page u app (p + m - 1) = .ok r →
          done r.issues r.paging ≠ .ok false) := by
  induction fuel generalizing app p with
  | zero =>
    refine ⟨0, le_refl 0, fun h => h, by simp [fetchIssuesUntil_zero], ?_, ?_⟩
    · intro q h1 h2
      omega
    · intro h
      omega
  | succ fuel ih =>
    cases hp : page u app p with
    | error e =>
      rw [fetchIssuesUntil_failed u done fuel app p e hp]
      refine ⟨1, by omega, fun _ => by omega, by simp [trace_requested, roundEvents, hp], ?_, ?_⟩
      · intro q h1 h2
        omega
      · intro _ r hr
        rw [Nat.add_sub_cancel, hp] at hr
        cases hr
    | ok r =>
      have stop : ∀ (app' : App) (out : Option (Except Rejection Fetched)),
          app'.trace = app.trace ++ roundEvents u app p →
          done r.issues r.paging ≠ .ok false →
          ∃ m, m ≤ fuel + 1 ∧ (0 < fuel + 1 → 0 < m)
            ∧ (app', out).1.trace = app.trace ++ (List.range' p m).flatMap (roundEvents u app)
            ∧ (∀ q, p ≤ q → q + 1 < p + m →
                ∃ r, page u app q = .ok r ∧ done r.issues r.paging = .ok false)
            ∧ (m < fuel + 1 → ∀ r, page u app (p + m - 1) = .ok r →
                done r.issues r.paging ≠ .ok false) := by
        intro app' out htrace hne
        refine ⟨1, by omega, fun _ => by omega, by simp [htrace], ?_, ?_⟩
        · intro q h1 h2
          omega
        · intro _ r' hr'
          rw [Nat.add_sub_cancel, hp] at hr'
          cases hr'
          exact hne
      have hround : ((app.requested u p).log (.done r.issues r.paging)).trace =
          app.trace ++ roundEvents u app p := by
        simp [trace_requested_log, roundEvents, hp]
      cases hd : done r.issues r.paging with
      | error e =>
        rw [fetchIssuesUntil_thrown u done fuel app p r e hp hd]
        exact stop _ _ hround (by rw [hd]; simp)
      | ok b =>
        cases b with
        | true =>
          rw [fetchIssuesUntil_done u done fuel app p r hp hd]
          exact stop _ _ hround (by rw [hd]; simp)
        | false =>
          obtain ⟨m, h1, h2, h3, h4, h5⟩ :=
            ih ((app.requested u p).log (.done r.issues r.paging)) (p + 1)
          rw [roundEvents_requested_log, hround] at h3
          simp only [page_requested_log] at h4 h5
          rw [fetchIssuesUntil_more_fst u done fuel app p r hp hd]
          refine ⟨m + 1, by omega, fun _ => by omega, ?_, ?_, ?_⟩
          · rw [h3, List.range'_succ p m, List.flatMap_cons, List.append_assoc]
          · intro q hq1 hq2
            by_cases hqp : q = p
            · subst hqp
              exact ⟨r, hp, hd⟩
            · exact h4 q (by omega) (by omega)
          · intro hm r' hr'
            have e : p + (m + 1) - 1 = p + 1 + m - 1 := by omega
            rw [e] at hr'
            exact h5 (by omega) r' hr'

/-- C5, as the code has it: `fetchIssuesUntil(p, done)` runs `m` rounds, for pages
`p, ..., p+m-1` (at least one when there is fuel), and in each round, once the page has
arrived, `done` is called with the issues of that page alone and the paging of that page: the
trace of the run is the sequence of the rounds, the `done` calls are exactly those of the
requested pages that arrived, in page order, and the run goes on to the next page exactly
when `done` is false. -/
theorem fetchIssuesUntil_done_arguments (u : Utils)
    (done : List Issue → Paging → Except Rejection Bool) (fuel : Nat) (app : App) (p : Nat) :
    ∃ m, m ≤ fuel ∧ (0 < fuel → 0 < m)
      ∧ (fetchIssuesUntil u done fuel app p).1.trace =
          app.trace ++ (List.range' p m).flatMap (roundEvents u app)
      ∧ pageCalls (fetchIssuesUntil u done fuel app p).1.trace =
          pageCalls app.trace ++ List.range' p m
      ∧ doneCalls (fetchIssuesUntil u done fuel app p).1.trace =
          doneCalls app.trace ++ (List.range' p m).filterMap (pageArgs u app)
      ∧ (∀ q, p ≤ q → q + 1 < p + m →
          ∃ r, page u app q = .ok r ∧ done r.issues r.paging = .ok false)
      ∧ (m < fuel → ∀ r, page u app (p + m - 1) = .ok r →
          done r.issues r.paging ≠ .ok false) := by
  obtain ⟨m, h1, h2, h3, h4, h5⟩ := fetchIssuesUntil_rounds u done fuel app p
  refine ⟨m, h1, h2, h3, ?_, ?_, h4, h5⟩
  · rw [h3, pageCalls_append, pageCalls_roundEvents]
  · rw [h3, doneCalls_append, doneCalls_roundEvents]

/-- Scenario B, run from page 1 with the `done` of `fetchIssuesForComponent`: three rounds, and
`done` is called on page 1, on page 2 and on page 3, each time with that page alone. -/
theorem fetchIssuesUntil_done_arguments_witness :
    (fetchIssuesUntil sampleUtils (done issueA01) 5 scenarioB 1).1.trace =
        (List.range' 1 3).flatMap (roundEvents sampleUtils scenarioB)
      ∧ (List.range' 1 3).filterMap (pageArgs sampleUtils scenarioB) =
        [(pageA1, ⟨1, 25, 60⟩), (pageA2, ⟨2, 25, 60⟩), (pageB, ⟨3, 25, 60⟩)]
      ∧ ∃ m, m ≤ 5 ∧ (0 < 5 → 0 < m)
      ∧ (fetchIssuesUntil sampleUtils (done issueA01) 5 scenarioB 1).1.trace =
          scenarioB.trace ++ (List.range' 1 m).flatMap (roundEvents sampleUtils scenarioB)
      ∧ pageCalls (fetchIssuesUntil sampleUtils (done issueA01) 5 scenarioB 1).1.trace =
          pageCalls scenarioB.trace ++ List.range' 1 m
      ∧ doneCalls (fetchIssuesUntil sampleUtils (done issueA01) 5 scenarioB 1).1.trace =
          doneCalls scenarioB.trace ++
            (List.range' 1 m).filterMap (pageArgs sampleUtils scenarioB)
      ∧ (∀ q, 1 ≤ q → q + 1 < 1 + m →
          ∃ r, page sampleUtils scenarioB q = .ok r
            ∧ done issueA01 r.issues r.paging = .ok false)
      ∧ (m < 5 → ∀ r, page sampleUtils scenarioB (1 + m - 1) = .ok r →
          done issueA01 r.issues r.paging ≠ .ok false) :=
  ⟨rfl, rfl, fetchIssuesUntil_done_arguments sampleUtils (done issueA01) 5 scenarioB 1⟩

/-- C5 as stated fails in scenario B: the second and third `done` calls receive the issues of
page 2 and of page 3, not the issues accumulated so far. -/
theorem fetchIssuesUntil_done_arguments_counterexample :
    doneCalls (fetchIssuesUntil sampleUtils (done issueA01) 3 scenarioB 1).1.trace =
        [(pageA1, ⟨1, 25, 60⟩), (pageA2, ⟨2, 25, 60⟩), (pageB, ⟨3, 25, 60⟩)]
      ∧ doneCalls (fetchIssuesUntil sampleUtils (done issueA01) 3 scenarioB 1).1.trace ≠
        [(pageA1, ⟨1, 25, 60⟩), (pageA1 ++ pageA2, ⟨2, 25, 60⟩),
          (pageA1 ++ pageA2 ++ pageB, ⟨3, 25, 60⟩)] :=
  ⟨rfl, by decide⟩

/-! ## An empty page -/

/-- C6 fails on the code: with page 1 of file `A` loaded, 60 issues announced and an empty
page 2, the `done` closure reads the last element of the empty array and throws, and
`fetchIssuesForComponent` is rejected with that `TypeError` after the one request for page 2,
whatever the fuel; no result is returned and the loaded issues stay as they were. -/
theorem fetchIssuesForComponent_rejected_on_empty_page :
    page sampleUtils scenarioHole 2 = .ok (sampleResponse [] ⟨2, 25, 60⟩)
      ∧ done issueA01 [] ⟨2, 25, 60⟩ = .error .typeError
      ∧ ∀ fuel,
        (fetchIssuesForComponent sampleUtils (fuel + 1) scenarioHole).2 =
            some (.error .typeError)
          ∧ pageCalls (fetchIssuesForComponent sampleUtils (fuel + 1) scenarioHole).1.trace = [2]
          ∧ (fetchIssuesForComponent sampleUtils (fuel + 1) scenarioHole).1.state.issues =
              pageA1 :=
  ⟨rfl, rfl, fun _ => ⟨rfl, rfl, rfl⟩⟩

/-! ## The request parameters -/

/-- C7: whatever `serializeQuery` yields, whatever the component, the `myIssues` flag and the
page index `p`, the parameter object that `fetchIssuesPage(p)` passes to `props.fetchIssues`
has `ps = 25`, `s = 'FILE_LINE'` and `p = p`. -/
theorem fetchIssuesPage_fixed_parameters (u : Utils) (app : App) (p : Nat) :
    requests (fetchIssuesPage u app p).1.trace = requests app.trace ++ [pageRequest u app p]
      ∧ (fetchIssuesPage u app p).2 = app.props.fetchIssues (pageRequest u app p)
      ∧ JSObj.get (pageRequest u app p) "ps" = some (.num 25)
      ∧ JSObj.get (pageRequest u app p) "s" = some (.str "FILE_LINE")
      ∧ JSObj.get (pageRequest u app p) "p" = some (.num p) := by
  refine ⟨?_, ?_, ?_, ?_, ?_⟩
  · rw [fetchIssuesPage_eq]
    simp [requests_append, requests]
  · rw [fetchIssuesPage_eq]
    rfl
  all_goals
    unfold pageRequest parameters
    cases app.state.myIssues <;>
      simp [JSObj.spread_cons, JSObj.spread_nil, JSObj.get_set_same, JSObj.get_set_other]

/-! ## The "my issues" filter -/

/-- C8, as the code has it: `handleMyIssuesChange(true)` pushes one location, with the current
pathname; its query is the serialization of the current query with `assigned` set to `true`
and `assignees` to the empty list (every other field unchanged), then `id` set to the key of
the component (`undefined` without a component), then `myIssues` set to `'true'`.  In the
state, `openFacets.assignees` becomes `false` and nothing else changes. -/
theorem handleMyIssuesChange_pushes (u : Utils) (app : App)
    (hq : JSObj.WellFormed app.state.query)
    (hs : JSObj.WellFormed (u.serializeQuery (myIssuesQuery app.state.query)))
    (hf : JSObj.WellFormed app.state.openFacets) :
    ∃ query,
      (handleMyIssuesChange u app true).trace =
          app.trace ++ [.routerPush { pathname := app.props.location.pathname, query := query }]
      ∧ JSObj.get (myIssuesQuery app.state.query) "assignees" = some (.arr [])
      ∧ JSObj.get (myIssuesQuery app.state.query) "assigned" = some (.bool true)
      ∧ (∀ k, k ≠ "assignees" → k ≠ "assigned" →
          JSObj.get (myIssuesQuery app.state.query) k = JSObj.get app.state.query k)
      ∧ JSObj.get query "myIssues" = some (.str "true")
      ∧ JSObj.get query "id" = some (componentKey app.props.component)
      ∧ (∀ k, k ≠ "id" → k ≠ "myIssues" →
          JSObj.get query k = JSObj.get (u.serializeQuery (myIssuesQuery app.state.query)) k)
      ∧ JSObj.get (handleMyIssuesChange u app true).state.openFacets "assignees" = some false
      ∧ (∀ k, k ≠ "assignees" →
          JSObj.get (handleMyIssuesChange u app true).state.openFacets k =
            JSObj.get app.state.openFacets k)
      ∧ (handleMyIssuesChange u app true).state =
          { app.state with openFacets := (handleMyIssuesChange u app true).state.openFacets }
      ∧ (handleMyIssuesChange u app true).props = app.props := by
  refine ⟨JSObj.set (JSObj.set (JSObj.spread [] (u.serializeQuery (myIssuesQuery app.state.query)))
    "id" (componentKey app.props.component)) "myIssues" (.str "true"), rfl, ?_, ?_, ?_, ?_, ?_,
    ?_, ?_, ?_, rfl, rfl⟩
  · exact JSObj.get_set_same _ _ _
  · unfold myIssuesQuery
    rw [JSObj.get_set_other _ _ _ _ (by decide), JSObj.get_set_same]
  · intro k h1 h2
    unfold myIssuesQuery
    rw [JSObj.get_set_other _ _ _ _ (Ne.symm h1), JSObj.get_set_other _ _ _ _ (Ne.symm h2),
      JSObj.get_spread_nil _ _ hq]
  · exact JSObj.get_set_same _ _ _
  · rw [JSObj.get_set_other _ _ _ _ (by decide), JSObj.get_set_same]
  · intro k h1 h2
    rw [JSObj.get_set_other _ _ _ _ (Ne.symm h2), JSObj.get_set_other _ _ _ _ (Ne.symm h1),
      JSObj.get_spread_nil _ _ hs]
  · exact JSObj.get_set_same _ _ _
  · intro k h1
    show JSObj.get (JSObj.set (JSObj.spread [] app.state.openFacets) "assignees" false) k = _
    rw [JSObj.get_set_other _ _ _ _ (Ne.symm h1), JSObj.get_spread_nil _ _ hf]

/-- Scenario D: on the page of project `proj` with assignee `bob` selected and
`assigned = false`, the pushed query is `resolved`, `assigned = true`, `assignees = []`,
`id = proj`, `myIssues = 'true'`, and the assignees facet is closed. -/
theorem handleMyIssuesChange_pushes_witness :
    (JSObj.WellFormed scenarioD.state.query
        ∧ JSObj.WellFormed (sampleUtils.serializeQuery (myIssuesQuery scenarioD.state.query))
        ∧ JSObj.WellFormed scenarioD.state.openFacets)
      ∧ (handleMyIssuesChange sampleUtils scenarioD true).trace =
          [.routerPush { pathname := "/issues",
                         query := [("resolved", .bool false), ("assigned", .bool true),
                           ("assignees", .arr []), ("id", .str "proj"),
                           ("myIssues", .str "true")] }]
      ∧ (handleMyIssuesChange sampleUtils scenarioD true).state.openFacets =
          [("resolutions", true), ("assignees", false)]
      ∧ ∃ query,
        (handleMyIssuesChange sampleUtils scenarioD true).trace =
            scenarioD.trace ++
              [.routerPush { pathname := scenarioD.props.location.pathname, query := query }]
        ∧ JSObj.get (myIssuesQuery scenarioD.state.query) "assignees" = some (.arr [])
        ∧ JSObj.get (myIssuesQuery scenarioD.state.query) "assigned" = some (.bool true)
        ∧ (∀ k, k ≠ "assignees" → k ≠ "assigned" →
            JSObj.get (myIssuesQuery scenarioD.state.query) k = JSObj.get scenarioD.state.query k)
        ∧ JSObj.get query "myIssues" = some (.str "true")
        ∧ JSObj.get query "id" = some (componentKey scenarioD.props.component)
        ∧ (∀ k, k ≠ "id" → k ≠ "myIssues" →
            JSObj.get query k =
              JSObj.get (sampleUtils.serializeQuery (myIssuesQuery scenarioD.state.query)) k)
        ∧ JSObj.get (handleMyIssuesChange sampleUtils scenarioD true).state.openFacets
            "assignees" = some false
        ∧ (∀ k, k ≠ "assignees" →
            JSObj.get (handleMyIssuesChange sampleUtils scenarioD true).state.openFacets k =
              JSObj.get scenarioD.state.openFacets k)
        ∧ (handleMyIssuesChange sampleUtils scenarioD true).state =
            { scenarioD.state with
              openFacets := (handleMyIssuesChange sampleUtils scenarioD true).state.openFacets }
        ∧ (handleMyIssuesChange sampleUtils scenarioD true).props = scenarioD.props :=
  have hq : JSObj.WellFormed scenarioD.state.query := by
    unfold JSObj.WellFormed; decide
  have hs : JSObj.WellFormed
      (sampleUtils.serializeQuery (myIssuesQuery scenarioD.state.query)) := by
    unfold JSObj.WellFormed; decide
  have hf : JSObj.WellFormed scenarioD.state.openFacets := by
    unfold JSObj.WellFormed; decide
  ⟨⟨hq, hs, hf⟩, rfl, rfl, handleMyIssuesChange_pushes sampleUtils scenarioD hq hs hf⟩

/-- C8 as stated fails in scenario D: the pushed query also carries `id = 'proj'`, so it is
not the serialization plus `myIssues = 'true'`. -/
theorem handleMyIssuesChange_pushes_counterexample :
    (handleMyIssuesChange sampleUtils scenarioD true).trace =
        [.routerPush { pathname := "/issues",
                       query := [("resolved", .bool false), ("assigned", .bool true),
                         ("assignees", .arr []), ("id", .str "proj"),
                         ("myIssues", .str "true")] }]
      ∧ JSObj.set (JSObj.spread []
            (sampleUtils.serializeQuery (myIssuesQuery scenarioD.state.query)))
          "myIssues" (.str "true") =
        [("resolved", .bool false), ("assigned", .bool true), ("assignees", .arr []),
          ("myIssues", .str "true")]
      ∧ (handleMyIssuesChange sampleUtils scenarioD true).trace ≠
        [.routerPush { pathname := "/issues",
                       query := JSObj.set (JSObj.spread []
                           (sampleUtils.serializeQuery (myIssuesQuery scenarioD.state.query)))
                         "myIssues" (.str "true") }] :=
  ⟨rfl, rfl, by decide⟩

/-! ## Moving the selection past the loaded issues -/

theorem trace_fetchMoreIssuesThen (app : App) (response : Response) :
    (fetchMoreIssuesThen app response).trace = app.trace := by
  unfold fetchMoreIssuesThen
  split
  · exact App.setState_trace _ _
  · rfl

theorem trace_fetchMoreIssues (u : Utils) (app : App) (paging : Paging)
    (hpaging : app.state.paging = some paging) :
    (fetchMoreIssues u app).trace =
      app.trace ++ [.fetchIssuesPage (paging.pageIndex + 1),
        .request (pageRequest u app (paging.pageIndex + 1))] := by
  unfold fetchMoreIssues
  rw [hpaging]
  simp only [fetchIssuesPage_eq]
  cases page u app (paging.pageIndex + 1) with
  | error e => rfl
  | ok r => exact trace_fetchMoreIssuesThen _ r

/-- C9, as the code has it: when the selected issue is the last of the loaded list,
`selectNextIssue` changes nothing and calls neither `fetchIssuesPage` nor
`fetchIssuesUntil`.  The next page is loaded by `fetchMoreIssues`, which calls
`fetchIssuesPage` once, for `paging.pageIndex + 1`, and never `fetchIssuesUntil`. -/
theorem selectNextIssue_at_boundary (u : Utils) (app : App) (paging : Paging)
    (hlast : getSelectedIndex app.state = some (app.state.issues.length - 1))
    (hpaging : app.state.paging = some paging) :
    selectNextIssue u app = app
      ∧ pageCalls (fetchMoreIssues u app).trace = pageCalls app.trace ++ [paging.pageIndex + 1]
      ∧ requests (fetchMoreIssues u app).trace =
          requests app.trace ++ [pageRequest u app (paging.pageIndex + 1)]
      ∧ untilCalls (fetchMoreIssues u app).trace = untilCalls app.trace := by
  refine ⟨?_, ?_, ?_, ?_⟩
  · unfold selectNextIssue
    simp only [hlast]
    rw [if_neg (by omega)]
  · rw [trace_fetchMoreIssues u app paging hpaging, pageCalls_append]
    simp [pageCalls]
  · rw [trace_fetchMoreIssues u app paging hpaging, requests_append]
    simp [requests]
  · rw [trace_fetchMoreIssues u app paging hpaging, untilCalls_append]
    simp [untilCalls]

/-- Page 1 of scenario B is loaded and its last issue `a25` is selected: `selectNextIssue`
does nothing, and `fetchMoreIssues` asks for page 2. -/
theorem selectNextIssue_at_boundary_witness :
    (getSelectedIndex scenarioLast.state = some (scenarioLast.state.issues.length - 1)
        ∧ scenarioLast.state.paging = some ⟨1, 25, 60⟩)
      ∧ selectNextIssue sampleUtils scenarioLast = scenarioLast
      ∧ pageCalls (fetchMoreIssues sampleUtils scenarioLast).trace =
          pageCalls scenarioLast.trace ++ [1 + 1]
      ∧ requests (fetchMoreIssues sampleUtils scenarioLast).trace =
          requests scenarioLast.trace ++ [pageRequest sampleUtils scenarioLast (1 + 1)]
      ∧ untilCalls (fetchMoreIssues sampleUtils scenarioLast).trace =
          untilCalls scenarioLast.trace :=
  ⟨⟨rfl, rfl⟩, selectNextIssue_at_boundary sampleUtils scenarioLast ⟨1, 25, 60⟩ rfl rfl⟩

/-- C9 as stated fails in that state: the last of 25 loaded issues is selected, 60 are
announced, and `selectNextIssue` makes no page request at all. -/
theorem selectNextIssue_at_boundary_counterexample :
    getSelectedIndex scenarioLast.state = some 24
      ∧ scenarioLast.state.issues.length = 25
      ∧ scenarioLast.state.paging = some ⟨1, 25, 60⟩
      ∧ pageCalls (selectNextIssue sampleUtils scenarioLast).trace = []
      ∧ requests (selectNextIssue sampleUtils scenarioLast).trace = []
      ∧ pageCalls (selectNextIssue sampleUtils scenarioLast).trace ≠ [2] :=
  ⟨rfl, rfl, rfl, rfl, rfl, by decide⟩

/-! ## Responses that arrive after the component is unmounted -/

theorem requested_frame (u : Utils) (app : App) (p : Nat) :
    (app.requested u p).props = app.props ∧ (app.requested u p).mounted = app.mounted
      ∧ (app.requested u p).state.issues = app.state.issues
      ∧ (app.mounted = false → (app.requested u p).state = app.state) := by
  cases h : app.mounted <;> simp [App.requested, App.setState, h]

theorem requested_log_frame (u : Utils) (app : App) (p : Nat) (e : Event) :
    ((app.requested u p).log e).props = app.props
      ∧ ((app.requested u p).log e).mounted = app.mounted
      ∧ ((app.requested u p).log e).state.issues = app.state.issues
      ∧ (app.mounted = false → ((app.requested u p).log e).state = app.state) :=
  requested_frame u app p

/-- What a run of `fetchIssuesUntil` leaves alone: the props, the `mounted` field, the issues
of the state, and the whole state when the component is not mounted. -/
theorem fetchIssuesUntil_frame (u : Utils)
    (done : List Issue → Paging → Except Rejection Bool) (fuel : Nat) (app : App) (p : Nat) :
    (fetchIssuesUntil u done fuel app p).1.props = app.props
      ∧ (fetchIssuesUntil u done fuel app p).1.mounted = app.mounted
      ∧ (fetchIssuesUntil u done fuel app p).1.state.issues = app.state.issues
      ∧ (app.mounted = false → (fetchIssuesUntil u done fuel app p).1.state = app.state) := by
  induction fuel generalizing app p with
  | zero => exact ⟨rfl, rfl, rfl, fun _ => rfl⟩
  | succ fuel ih =>
    cases hp : page u app p with
    | error e =>
      rw [fetchIssuesUntil_failed u done fuel app p e hp]
      exact requested_frame u app p
    | ok r =>
      cases hd : done r.issues r.paging with
      | error e =>
        rw [fetchIssuesUntil_thrown u done fuel app p r e hp hd]
        exact requested_log_frame u app p _
      | ok b =>
        cases b with
        | true =>
          rw [fetchIssuesUntil_done u done fuel app p r hp hd]
          exact requested_log_frame u app p _
        | false =>
          rw [fetchIssuesUntil_more_fst u done fuel app p r hp hd]
          obtain ⟨h1, h2, h3, h4⟩ :=
            ih ((app.requested u p).log (.done r.issues r.paging)) (p + 1)
          obtain ⟨g1, g2, g3, g4⟩ := requested_log_frame u app p (.done r.issues r.paging)
          exact ⟨h1.trans g1, h2.trans g2, h3.trans g3,
            fun hm => (h4 (g2.trans hm)).trans (g4 hm)⟩

theorem fetchIssuesForComponentThen_unmounted (app : App) (issues : List Issue)
    (openIssue : Issue) (fetched : Fetched) (h : app.mounted = false) :
    (fetchIssuesForComponentThen app issues openIssue fetched).1 = app := by
  simp [fetchIssuesForComponentThen, App.setState, h]

/-- C10: when the component is no longer mounted (`mounted = false`) at the time the response
arrives, the completion handlers of `fetchFirstIssues`, `fetchMoreIssues` and
`fetchIssuesForComponent` leave the component as it is, every field of the state included:
the first two test `this.mounted`, and the `setState` of the third is dropped by React.  The
same holds of the three operations run as a whole on an unmounted component. -/
theorem completion_handlers_leave_unmounted (u : Utils) (app : App) (response : Response)
    (issues : List Issue) (openIssue : Issue) (fetched : Fetched) (fuel : Nat)
    (h : app.mounted = false) :
    fetchFirstIssuesThen u app response = app
      ∧ fetchMoreIssuesThen app response = app
      ∧ (fetchIssuesForComponentThen app issues openIssue fetched).1 = app
      ∧ (fetchFirstIssues u app).state = app.state
      ∧ (fetchMoreIssues u app).state = app.state
      ∧ (fetchIssuesForComponent u fuel app).1.state = app.state := by
  refine ⟨by simp [fetchFirstIssuesThen, h], by simp [fetchMoreIssuesThen, h],
    fetchIssuesForComponentThen_unmounted app issues openIssue fetched h, ?_, ?_, ?_⟩
  · unfold fetchFirstIssues fetchIssues
    rw [App.setState_of_unmounted app _ h]
    split
    · rename_i app' response' heq
      simp only [Prod.mk.injEq] at heq
      rw [← heq.1]
      simp [fetchFirstIssuesThen, App.log, h]
    · rename_i app' e heq
      simp only [Prod.mk.injEq] at heq
      rw [← heq.1]
      rfl
  · unfold fetchMoreIssues
    split
    · rfl
    · rw [fetchIssuesPage_eq, App.setState_of_unmounted app _ h]
      split
      · rename_i app' response' heq
        simp only [Prod.mk.injEq] at heq
        rw [← heq.1]
        simp [fetchMoreIssuesThen, h]
      · rename_i app' e heq
        simp only [Prod.mk.injEq] at heq
        rw [← heq.1]
  · cases hfind : app.state.issues.find?
        (fun issue => some issue.key == u.getOpen app.props.location.query) with
    | none => simp [fetchIssuesForComponent, hfind]
    | some found =>
      cases hpaging : app.state.paging with
      | none => simp [fetchIssuesForComponent, hfind, hpaging]
      | some paging =>
        cases hd : done found app.state.issues paging with
        | error e => simp [fetchIssuesForComponent, hfind, hpaging, hd]
        | ok b =>
          cases b with
          | true => simp [fetchIssuesForComponent, hfind, hpaging, hd]
          | false =>
            obtain ⟨_, f2, _, f4⟩ :=
              fetchIssuesUntil_frame u (done found) fuel app (paging.pageIndex + 1)
            simp only [fetchIssuesForComponent, hfind, hpaging, hd]
            rcases hrec : fetchIssuesUntil u (done found) fuel app (paging.pageIndex + 1)
              with ⟨app', _ | ⟨e | response'⟩⟩
            · rw [hrec] at f4
              exact f4 h
            · rw [hrec] at f4
              exact f4 h
            · rw [hrec] at f4 f2
              simp only
              rw [fetchIssuesForComponentThen_unmounted app' _ _ _ (f2.trans h)]
              exact f4 h

/-- The component of scenario B has been unmounted when the answers arrive: the three
completion handlers and the three operations leave its state as it was. -/
theorem completion_handlers_leave_unmounted_witness :
    scenarioUnmounted.mounted = false
      ∧ fetchFirstIssuesThen sampleUtils scenarioUnmounted responseA2 = scenarioUnmounted
      ∧ fetchMoreIssuesThen scenarioUnmounted responseA2 = scenarioUnmounted
      ∧ (fetchIssuesForComponentThen scenarioUnmounted pageA1 issueA01
            { issues := pageA2 ++ pageB, paging := ⟨3, 25, 60⟩ }).1 = scenarioUnmounted
      ∧ (fetchFirstIssues sampleUtils scenarioUnmounted).state = scenarioUnmounted.state
      ∧ (fetchMoreIssues sampleUtils scenarioUnmounted).state = scenarioUnmounted.state
      ∧ (fetchIssuesForComponent sampleUtils 2 scenarioUnmounted).1.state =
          scenarioUnmounted.state :=
  ⟨rfl, completion_handlers_leave_unmounted sampleUtils scenarioUnmounted responseA2 pageA1
    issueA01 { issues := pageA2 ++ pageB, paging := ⟨3, 25, 60⟩ } 2 rfl⟩

/-! ## The issues of the open issue's file -/

theorem lt_length_of_getElem? {α : Type} (L : List α) (i : Nat) (x : α)
    (h : L[i]? = some x) : i < L.length := by
  by_contra hge
  rw [List.getElem?_eq_none (by omega)] at h
  cases h

/-- When the loaded prefix `L.take n` holds the open issue and either is the whole of `L` or
ends with an issue of another component, it holds every issue of the open issue's
component. -/
theorem filter_take_of_stop (L : List Issue) (openIssue : Issue) (n : Nat)
    (hc : ContiguousComponents L) (hmem : openIssue ∈ L.take n)
    (hstop : L.length ≤ n ∨ ∃ x, L[n - 1]? = some x ∧ x.component ≠ openIssue.component) :
    (L.take n).filter (isSameComponent openIssue) = L.filter (isSameComponent openIssue) := by
  rcases hstop with h | ⟨x, hx, hne⟩
  · rw [List.take_of_length_le h]
  · have hnil : (L.drop n).filter (isSameComponent openIssue) = [] := by
      rw [List.filter_eq_nil_iff]
      intro y hy hsame
      obtain ⟨j, hj⟩ := List.mem_iff_getElem?.1 hmem
      rw [List.getElem?_take] at hj
      split at hj
      · rename_i hjn
        obtain ⟨l, hl⟩ := List.mem_iff_getElem?.1 hy
        rw [List.getElem?_drop] at hl
        have hlt := lt_length_of_getElem? L (n + l) y hl
        have hsame' : y.component = openIssue.component := by
          simpa [isSameComponent] using hsame
        have := hc (n + l) hlt (n - 1) (by omega) j (by omega) (by simp [hj, hl, hsame'])
        rw [hx, hj] at this
        exact hne (by simpa using this)
      · cases hj
    conv_rhs => rw [← List.take_append_drop n L]
    rw [List.filter_append, hnil, List.append_nil]

theorem done_of_last (openIssue : Issue) (issues : List Issue) (paging : Paging) (x : Issue)
    (hnot : ¬ paging.total ≤ paging.pageIndex * paging.pageSize)
    (hlast : issues.getLast? = some x) :
    done openIssue issues paging = .ok (x.component != openIssue.component) := by
  simp [done, hnot, hlast]

theorem done_of_reached (openIssue : Issue) (issues : List Issue) (paging : Paging)
    (h : paging.total ≤ paging.pageIndex * paging.pageSize) :
    done openIssue issues paging = .ok true := by
  simp [done, h]

theorem getLast?_take_drop (L : List Issue) (a p : Nat) (hp : 0 < p) (h : a + p ≤ L.length) :
    ((L.drop a).take p).getLast? = L[a + p - 1]? := by
  rw [List.getLast?_eq_getElem?, List.length_take, List.length_drop,
    Nat.min_eq_left (by omega), List.getElem?_take, if_pos (by omega), List.getElem?_drop]
  congr 1
  omega

theorem drop_take_append_drop (T : List Issue) (a p : Nat) :
    (T.take (a + p)).drop a ++ T.drop (a + p) = T.drop a := by
  rw [List.drop_take, ← List.drop_drop, Nat.add_sub_cancel_left]
  exact List.take_append_drop p (T.drop a)

theorem drop_take_split (L : List Issue) (a p M : Nat) (h : a + p ≤ M) :
    (L.take (a + p)).drop a ++ (L.take M).drop (a + p) = (L.take M).drop a := by
  have e : L.take (a + p) = (L.take M).take (a + p) := by
    rw [List.take_take, Nat.min_eq_left h]
  rw [e]
  exact drop_take_append_drop (L.take M) a p

/-- Against a backend that serves `L` in pages, the run of `fetchIssuesUntil` from page `q+1`
with the `done` of `fetchIssuesForComponent`, when `L` goes beyond page `q`, resolves with the
issues of pages `q+1, ..., m` and the paging of page `m`, where page `m` ends `L` or ends with
an issue of another component. -/
theorem fetchIssuesUntil_slices (u : Utils) (openIssue : Issue) (L : List Issue)
    (pageSize : Nat) (hps : 0 < pageSize) (fuel q : Nat) (app : App)
    (hb : ∀ i, 1 ≤ i → ∃ r, page u app i = .ok r ∧ r.issues = slice L pageSize i
      ∧ r.paging = ⟨i, pageSize, L.length⟩)
    (hmore : q * pageSize < L.length) (hfuel : L.length ≤ q * pageSize + fuel) :
    ∃ m, q < m
      ∧ (fetchIssuesUntil u (done openIssue) fuel app (q + 1)).2 =
          some (.ok { issues := (L.take (m * pageSize)).drop (q * pageSize),
                      paging := ⟨m, pageSize, L.length⟩ })
      ∧ (L.length ≤ m * pageSize
          ∨ ∃ x, L[m * pageSize - 1]? = some x ∧ x.component ≠ openIssue.component) := by
  induction fuel generalizing q app with
  | zero => omega
  | succ fuel ih =>
    obtain ⟨r, hp, hri, hrp⟩ := hb (q + 1) (by omega)
    have e : (q + 1) * pageSize = q * pageSize + pageSize := Nat.succ_mul q pageSize
    have hslice : r.issues = (L.take ((q + 1) * pageSize)).drop (q * pageSize) := by
      rw [hri, slice, List.drop_take, e, Nat.add_sub_cancel_left, Nat.add_sub_cancel]
    by_cases hreach : L.length ≤ (q + 1) * pageSize
    · have hd : done openIssue r.issues r.paging = .ok true :=
        done_of_reached openIssue r.issues r.paging (by rw [hrp]; exact hreach)
      rw [fetchIssuesUntil_done u _ fuel app (q + 1) r hp hd]
      exact ⟨q + 1, by omega, by rw [hslice, hrp], Or.inl hreach⟩
    · obtain ⟨x, hx⟩ : ∃ x, L[(q + 1) * pageSize - 1]? = some x := by
        cases hget : L[(q + 1) * pageSize - 1]? with
        | some x => exact ⟨x, rfl⟩
        | none =>
          have := List.getElem?_eq_none_iff.1 hget
          omega
      have hlast : r.issues.getLast? = some x := by
        rw [hri, slice, Nat.add_sub_cancel,
          getLast?_take_drop L (q * pageSize) pageSize hps (by omega), ← e]
        exact hx
      have hd := done_of_last openIssue r.issues r.paging x (by rw [hrp]; exact hreach) hlast
      by_cases hcomp : x.component = openIssue.component
      · have hd' : done openIssue r.issues r.paging = .ok false := by
          rw [hd]
          simp [hcomp]
        obtain ⟨m, hm, h2, h3⟩ :=
          ih (q + 1) ((app.requested u (q + 1)).log (.done r.issues r.paging))
            (fun i hi => by rw [page_requested_log]; exact hb i hi) (by omega) (by omega)
        rw [fetchIssuesUntil_more_snd u _ fuel app (q + 1) r hp hd', h2]
        refine ⟨m, by omega, ?_, h3⟩
        have hle : q * pageSize + pageSize ≤ m * pageSize := by
          rw [← e]
          exact Nat.mul_le_mul_right pageSize (Nat.le_of_lt hm)
        have := drop_take_split L (q * pageSize) pageSize (m * pageSize) hle
        simp only [Option.map, Except.map, hslice, e, this]
      · have hd' : done openIssue r.issues r.paging = .ok true := by
          rw [hd]
          simpa using hcomp
        rw [fetchIssuesUntil_done u _ fuel app (q + 1) r hp hd']
        exact ⟨q + 1, by omega, by rw [hslice, hrp], Or.inr ⟨x, hx, hcomp⟩⟩

theorem flatMap_slice (L : List Issue) (pageSize k : Nat) :
    (List.range' 1 k).flatMap (slice L pageSize) = L.take (k * pageSize) := by
  induction k with
  | zero => simp
  | succ k ih =>
    have e : (k + 1) * pageSize = k * pageSize + pageSize := Nat.succ_mul k pageSize
    rw [List.range'_concat, List.flatMap_append, ih, e, List.take_add]
    simp [slice]

theorem fetchIssuesForComponent_of_done (u : Utils) (fuel : Nat) (app : App)
    (openIssue : Issue) (paging : Paging)
    (hopen : app.state.issues.find?
      (fun issue => some issue.key == u.getOpen app.props.location.query) = some openIssue)
    (hpaging : app.state.paging = some paging)
    (hd : done openIssue app.state.issues paging = .ok true) :
    fetchIssuesForComponent u fuel app =
      (app, some (.ok (app.state.issues.filter (isSameComponent openIssue)))) := by
  simp only [fetchIssuesForComponent, hopen, hpaging, hd]

theorem fetchIssuesForComponent_of_more (u : Utils) (fuel : Nat) (app : App)
    (openIssue : Issue) (paging : Paging) (response : Fetched)
    (hopen : app.state.issues.find?
      (fun issue => some issue.key == u.getOpen app.props.location.query) = some openIssue)
    (hpaging : app.state.paging = some paging)
    (hd : done openIssue app.state.issues paging = .ok false)
    (hrun : (fetchIssuesUntil u (done openIssue) fuel app (paging.pageIndex + 1)).2 =
      some (.ok response)) :
    (fetchIssuesForComponent u fuel app).2 =
        some (.ok ((app.state.issues ++ response.issues).filter (isSameComponent openIssue)))
      ∧ (fetchIssuesForComponent u fuel app).1.state.issues =
          if app.mounted then app.state.issues ++ response.issues else app.state.issues := by
  obtain ⟨_, f2, f3, _⟩ :=
    fetchIssuesUntil_frame u (done openIssue) fuel app (paging.pageIndex + 1)
  simp only [fetchIssuesForComponent, hopen, hpaging, hd]
  rcases hrec : fetchIssuesUntil u (done openIssue) fuel app (paging.pageIndex + 1) with ⟨a, o⟩
  rw [hrec] at hrun f2 f3
  simp only at hrun f2 f3
  subst hrun
  refine ⟨rfl, ?_⟩
  cases hm : app.mounted
  · simp [fetchIssuesForComponentThen, App.setState, f2, hm, f3]
  · simp [fetchIssuesForComponentThen, App.setState, f2, hm]

/-- C11: let `L` be a list of issues in which the issues of one component are contiguous,
served in pages of a positive `pageSize`.  When the state holds pages `1..k` of `L` (`k ≥ 1`)
with the paging of page `k` and the open issue is among them, `fetchIssuesForComponent`
resolves, for every fuel from `L.length` on, with the issues of `L` that belong to the
component of the open issue, in the order of `L`; the issues the state holds afterwards are
pages `1..m` of `L` for some `m ≥ k`. -/
theorem fetchIssuesForComponent_same_component (u : Utils) (app : App) (L : List Issue)
    (pageSize k fuel : Nat) (openIssue : Issue)
    (hc : ContiguousComponents L) (hps : 0 < pageSize) (hk : 1 ≤ k)
    (hb : ∀ i, 1 ≤ i → ∃ r, page u app i = .ok r ∧ r.issues = slice L pageSize i
      ∧ r.paging = ⟨i, pageSize, L.length⟩)
    (hissues : app.state.issues = (List.range' 1 k).flatMap (slice L pageSize))
    (hpaging : app.state.paging = some ⟨k, pageSize, L.length⟩)
    (hopen : app.state.issues.find?
      (fun issue => some issue.key == u.getOpen app.props.location.query) = some openIssue)
    (hfuel : L.length ≤ fuel) :
    (fetchIssuesForComponent u fuel app).2 =
        some (.ok (L.filter (isSameComponent openIssue)))
      ∧ ∃ m, k ≤ m
        ∧ (fetchIssuesForComponent u fuel app).1.state.issues =
            (List.range' 1 m).flatMap (slice L pageSize) := by
  rw [flatMap_slice] at hissues
  simp only [flatMap_slice]
  have hmem : openIssue ∈ L.take (k * pageSize) := hissues ▸ List.mem_of_find?_eq_some hopen
  have hpos : 0 < k * pageSize := Nat.mul_pos hk hps
  by_cases hreach : L.length ≤ k * pageSize
  · have hd : done openIssue app.state.issues ⟨k, pageSize, L.length⟩ = .ok true :=
      done_of_reached _ _ _ hreach
    rw [fetchIssuesForComponent_of_done u fuel app openIssue _ hopen hpaging hd, hissues]
    exact ⟨by rw [filter_take_of_stop L openIssue _ hc hmem (Or.inl hreach)], k, le_refl k, rfl⟩
  · obtain ⟨x, hx⟩ : ∃ x, L[k * pageSize - 1]? = some x := by
      cases hget : L[k * pageSize - 1]? with
      | some x => exact ⟨x, rfl⟩
      | none =>
        have := List.getElem?_eq_none_iff.1 hget
        omega
    have hlast : app.state.issues.getLast? = some x := by
      have := getLast?_take_drop L 0 (k * pageSize) hpos (by omega)
      rw [List.drop_zero, Nat.zero_add] at this
      rw [hissues, this]
      exact hx
    have hd := done_of_last openIssue app.state.issues ⟨k, pageSize, L.length⟩ x hreach hlast
    by_cases hcomp : x.component = openIssue.component
    · have hd' : done openIssue app.state.issues ⟨k, pageSize, L.length⟩ = .ok false := by
        rw [hd]
        simp [hcomp]
      obtain ⟨m, hm, hrun, hstop⟩ :=
        fetchIssuesUntil_slices u openIssue L pageSize hps fuel k app hb (by omega) (by omega)
      obtain ⟨h1, h2⟩ :=
        fetchIssuesForComponent_of_more u fuel app openIssue _ _ hopen hpaging hd' hrun
      have hjoin : app.state.issues ++ (L.take (m * pageSize)).drop (k * pageSize) =
          L.take (m * pageSize) := by
        have hle : k * pageSize ≤ m * pageSize :=
          Nat.mul_le_mul_right pageSize (Nat.le_of_lt hm)
        have e : L.take (k * pageSize) = (L.take (m * pageSize)).take (k * pageSize) := by
          rw [List.take_take, Nat.min_eq_left hle]
        rw [hissues, e]
        exact List.take_append_drop _ _
      have hmem' : openIssue ∈ L.take (m * pageSize) := by
        rw [← hjoin, hissues]
        exact List.mem_append_left _ hmem
      rw [h1, h2]
      simp only [hjoin]
      refine ⟨by rw [filter_take_of_stop L openIssue _ hc hmem' hstop], ?_⟩
      cases app.mounted
      · exact ⟨k, le_refl k, hissues⟩
      · exact ⟨m, Nat.le_of_lt hm, rfl⟩
    · have hd' : done openIssue app.state.issues ⟨k, pageSize, L.length⟩ = .ok true := by
        rw [hd]
        simpa using hcomp
      rw [fetchIssuesForComponent_of_done u fuel app openIssue _ hopen hpaging hd', hissues]
      exact ⟨by rw [filter_take_of_stop L openIssue _ hc hmem (Or.inr ⟨x, hx, hcomp⟩)],
        k, le_refl k, rfl⟩

/-- Five issues, three of file `A` then two of file `B`, served in pages of 2, with page 1
loaded and `a01` open: page 2 is fetched, the three issues of file `A` are returned, and the
state holds pages 1 and 2. -/
theorem fetchIssuesForComponent_same_component_witness :
    (ContiguousComponents fiveIssues ∧ 0 < 2 ∧ 1 ≤ 1
        ∧ (∀ i, 1 ≤ i → ∃ r, page sampleUtils scenarioSliced i = .ok r
            ∧ r.issues = slice fiveIssues 2 i ∧ r.paging = ⟨i, 2, fiveIssues.length⟩)
        ∧ scenarioSliced.state.issues = (List.range' 1 1).flatMap (slice fiveIssues 2)
        ∧ scenarioSliced.state.paging = some ⟨1, 2, fiveIssues.length⟩
        ∧ scenarioSliced.state.issues.find?
            (fun issue => some issue.key ==
              sampleUtils.getOpen scenarioSliced.props.location.query) = some issueA01
        ∧ fiveIssues.length ≤ 5)
      ∧ (fetchIssuesForComponent sampleUtils 5 scenarioSliced).2 =
          some (.ok (issuesOf "A" ["a01", "a02", "a03"]))
      ∧ (fetchIssuesForComponent sampleUtils 5 scenarioSliced).1.state.issues =
          issuesOf "A" ["a01", "a02", "a03"] ++ issuesOf "B" ["b01"]
      ∧ pageCalls (fetchIssuesForComponent sampleUtils 5 scenarioSliced).1.trace = [2]
      ∧ (fetchIssuesForComponent sampleUtils 5 scenarioSliced).2 =
          some (.ok (fiveIssues.filter (isSameComponent issueA01)))
      ∧ ∃ m, 1 ≤ m
        ∧ (fetchIssuesForComponent sampleUtils 5 scenarioSliced).1.state.issues =
            (List.range' 1 m).flatMap (slice fiveIssues 2) :=
  have hc : ContiguousComponents fiveIssues := by
    unfold ContiguousComponents
    decide
  have hb : ∀ i, 1 ≤ i → ∃ r, page sampleUtils scenarioSliced i = .ok r
      ∧ r.issues = slice fiveIssues 2 i ∧ r.paging = ⟨i, 2, fiveIssues.length⟩ :=
    fun _ _ => ⟨_, rfl, rfl, rfl⟩
  ⟨⟨hc, by decide, by decide, hb, rfl, rfl, rfl, by decide⟩, rfl, rfl, rfl,
    fetchIssuesForComponent_same_component sampleUtils scenarioSliced fiveIssues 2 1 5 issueA01
      hc (by decide) (by decide) hb rfl rfl rfl (by decide)⟩

end Issues
